import Mathlib

/-!
# Verification of the Maildir folder store (offlineimap3, `offlineimap/folder/Maildir.py`)

Shallow embedding of the Maildir folder backend.  Filenames are modelled as
`List Char`; Python `dict`s keyed by UID are modelled as association lists with
insertion-order/overwrite semantics; Python `set`s of flag characters are
modelled (up to the evident isomorphism) as sorted duplicate-free `List Char`
values, built with `mkSet`.  The filesystem visible to the folder (the
`new/`, `cur/` and `tmp/` subdirectories) is modelled as a list of files, each
a directory tag, a name and a size.  Regular-expression searches from the
source (`,U=(\d+)`, `<infosep>2,(\w*)`, `(\d+)`, `FMD5=([a-fA-F0-9]+)`, and the
prefix match `([^<infosep>,]*)`) are modelled with explicit left-to-right
scanning functions over the ASCII fragment the claims concern.
-/

/-- Filenames and other Python strings are modelled as lists of characters. -/
abbrev Str := List Char

/-- ASCII decimal digit, as matched by `\d` on the inputs at hand. -/
def isDigitChar (c : Char) : Bool := decide ('0' ≤ c ∧ c ≤ '9')

/-- ASCII word character, as matched by `\w` on the inputs at hand
(flag letters are ASCII). -/
def isWordChar (c : Char) : Bool :=
  decide (('A' ≤ c ∧ c ≤ 'Z') ∨ ('a' ≤ c ∧ c ≤ 'z') ∨ ('0' ≤ c ∧ c ≤ '9') ∨ c = '_')

/-- Value of a run of decimal digits, as computed by Python `int(...)`. -/
def digitsToNat (l : Str) : Nat :=
  l.foldl (fun n c => 10 * n + (c.toNat - '0'.toNat)) 0

/-- Decimal digits of a natural number (fuel-driven so the kernel can
evaluate it); models `'%d' % n` for `n ≥ 0`. -/
def natToCharsAux : Nat → Nat → Str
  | 0, _ => []
  | fuel + 1, n =>
    if n < 10 then [Nat.digitChar n]
    else natToCharsAux fuel (n / 10) ++ [Nat.digitChar (n % 10)]

def natToChars (n : Nat) : Str := natToCharsAux (n + 1) n

/-- Decimal rendering of an integer; models `'%d' % n`. -/
def intToChars (n : Int) : Str :=
  if n < 0 then '-' :: natToChars n.natAbs else natToChars n.natAbs

/-- `startsWith pat s` holds when `pat` is an initial segment of `s`. -/
def startsWith : Str → Str → Bool
  | [], _ => true
  | _ :: _, [] => false
  | p :: ps, c :: cs => if p = c then startsWith ps cs else false

/-- Python's `pat in s` substring test. -/
def isSubstr (pat : Str) : Str → Bool
  | [] => pat.isEmpty
  | c :: rest => startsWith pat (c :: rest) || isSubstr pat rest

/-- Insert a character into a sorted duplicate-free list, keeping it sorted
and duplicate-free.  This is the representation of Python `set` insertion. -/
def setInsert (c : Char) : Str → Str
  | [] => [c]
  | d :: ds => if c < d then c :: d :: ds else if c = d then d :: ds else d :: setInsert c ds

/-- Canonical (sorted, duplicate-free) representative of the character set
with the given members: models Python `set(...)`, and on an already-canonical
value `''.join(sorted(...))` is the value itself. -/
def mkSet (l : Str) : Str := l.foldr setInsert []

/-! ## Python dictionaries keyed by UID

Association lists with Python `dict` semantics: updating an existing key
replaces its value in place, a new key is appended. -/

def dGet {α : Type} (d : List (Int × α)) (k : Int) : Option α :=
  (d.find? (fun p => decide (p.1 = k))).map Prod.snd

def dInsert {α : Type} (d : List (Int × α)) (k : Int) (v : α) : List (Int × α) :=
  match d with
  | [] => [(k, v)]
  | p :: ps => if p.1 = k then (k, v) :: ps else p :: dInsert ps k v

def dKeys {α : Type} (d : List (Int × α)) : List Int := d.map Prod.fst

def dErase {α : Type} (d : List (Int × α)) (k : Int) : List (Int × α) :=
  d.filter (fun p => !decide (p.1 = k))

/-! ## The data model -/

/-- The three Maildir subdirectories the folder touches. -/
inductive Dir : Type
  | new
  | cur
  | tmp
deriving DecidableEq

/-- A file on disk: which subdirectory it is in, its name (no path
separators), and its size in bytes (`os.path.getsize`). -/
structure DFile where
  dir : Dir
  name : Str
  size : Nat
deriving DecidableEq

/-- One entry of `self.messagelist`: the message's flag set (canonical
sorted list) and its path relative to the folder root, as a
(subdirectory, basename) pair (the source stores `os.path.join(dirannex,
filename)`; `os.path.split` recovers the pair). -/
structure MsgRecord where
  flags : Str
  filename : Dir × Str
deriving DecidableEq

abbrev MsgList := List (Int × MsgRecord)

/-- The per-folder constants consulted by the codec and the scanner:
`self._foldermd5`, `self.infosep`, and the configured maximum message size
(`self.getmaxsize()`, `None` or an int; Python treats a configured `0` as
no limit because `if maxsize and ...` is falsy at `0`). -/
structure Store where
  foldermd5 : Str
  infosep : Char
  maxsize : Option Nat
deriving DecidableEq

/-- Errors surfaced by the modelled operations (OfflineImapError severities,
`assert` failure, `KeyError`, `OSError`, and Python 3's `TypeError`). -/
inductive OiError : Type
  | assertionError
  | folderError
  | messageError
  | keyError
  | osError
  | typeError
deriving DecidableEq

/-- A message body, reduced to what the folder consults: its byte size and
the timestamp recoverable from its `Date`/`Delivery-date` headers.
Modelled from the spec: `BaseFolder.get_message_date` is not part of this
source file; per the spec it extracts an optional timestamp from the
message's headers, modelled here as the `date` field. -/
structure Msg where
  date : Option Int
  size : Nat
deriving DecidableEq

/-- Full mutable state of a `MaildirFolder` as the claims exercise it:
the store constants, the folder name (a Python `str`), the message-list
cache, the on-disk files, and the process-wide `_gettimeseq` state
(`timehash`), together with the ambient values `int(time.time())`,
`os.getpid()` and `socket.gethostname()` and the
`filename_use_mail_timestamp` configuration switch. -/
structure MState where
  store : Store
  name : Str
  messagelist : MsgList
  disk : List DFile
  timehash : List (Int × Nat)
  now : Int
  pid : Nat
  hostname : Str
  useMailTimestamp : Bool
deriving DecidableEq

/-! ## The filename codec -/

/-- The literal `,FMD5=` marker. -/
def fmd5Tag : Str := [',', 'F', 'M', 'D', '5', '=']

/-- `re.compile(',U=(\d+)').search`: leftmost occurrence of `,U=` followed
by at least one digit; the group is the maximal digit run, returned as an
integer. -/
def uidSearch : Str → Option Nat
  | [] => none
  | c :: rest =>
    if (c = ',') ∧ (startsWith ['U', '='] rest = true) ∧
        ((rest.drop 2).takeWhile isDigitChar ≠ []) then
      some (digitsToNat ((rest.drop 2).takeWhile isDigitChar))
    else uidSearch rest

/-- `re.compile('%s2,(\w*)' % infosep).search`: leftmost occurrence of the
info separator followed by `2,`; the group is the (possibly empty) maximal
run of word characters after it. -/
def flagSearch (sep : Char) : Str → Option Str
  | [] => none
  | c :: rest =>
    if (c = sep) ∧ (startsWith ['2', ','] rest = true) then
      some ((rest.drop 2).takeWhile isWordChar)
    else flagSearch sep rest

/-- `re.compile('(\d+)').search`: maximal digit run starting at the first
digit of the string, if any. -/
def timestampSearch : Str → Option Str
  | [] => none
  | c :: rest =>
    if isDigitChar c = true then some (c :: rest.takeWhile isDigitChar)
    else timestampSearch rest

/-- `re.search("FMD5=([a-fA-F0-9]+)", s)`: leftmost occurrence of `FMD5=`
followed by at least one hex character; the group is the maximal hex run. -/
def isHexChar (c : Char) : Bool :=
  decide (('0' ≤ c ∧ c ≤ '9') ∨ ('a' ≤ c ∧ c ≤ 'f') ∨ ('A' ≤ c ∧ c ≤ 'F'))

def fmd5Search : Str → Option Str
  | [] => none
  | c :: rest =>
    if (c = 'F') ∧ (startsWith ['M', 'D', '5', '='] rest = true) ∧
        ((rest.drop 4).takeWhile isHexChar ≠ []) then
      some ((rest.drop 4).takeWhile isHexChar)
    else fmd5Search rest

/-- `MaildirFolder._parse_filename`: returns `(prefix, UID, FMD5, flags)`.
The prefix is everything up to the first info separator or comma; the UID
is resolved only when `',FMD5=' + self._foldermd5` occurs in the filename
(a substring test) and a `,U=<digits>` marker is found; the `fmd5`
component is never assigned by the source and is always `None`; the flags
are the set of characters of the flag-match group, empty when there is no
match. -/
def parseFilename (st : Store) (filename : Str) : Str × Option Nat × Option Str × Str :=
  let pre := filename.takeWhile (fun c => decide (¬(c = st.infosep ∨ c = ',')))
  let foldermatch := isSubstr (fmd5Tag ++ st.foldermd5) filename
  let uid := if foldermatch = true then uidSearch filename else none
  let flags :=
    match flagSearch st.infosep filename with
    | some g => mkSet g
    | none => mkSet []
  (pre, uid, none, flags)

/-- The UID the scanner recovers for a filename, following lines 186-196 of
the source: take the UID component of `_parse_filename`; if it is resolved,
re-run the `,U=(\d+)` search on the filename and use its value; `none`
means the scanner must assign a synthetic negative UID. -/
def fileUid? (st : Store) (name : Str) : Option Int :=
  match (parseFilename st name).2.1 with
  | none => none
  | some _ =>
    match uidSearch name with
    | none => none
    | some n => some (n : Int)

/-- `MaildirFolder._iswithintime`: the first digit run found anywhere in
the message name is compared against the cutoff (`time.mktime(date)`,
modelled as a natural number); a name with no digits is within time. -/
def iswithintime (name : Str) (cutoff : Nat) : Bool :=
  match timestampSearch name with
  | none => true
  | some ds => if digitsToNat ds < cutoff then false else true

/-! ## The unique token generator `_gettimeseq` -/

/-- `_gettimeseq(date)`: with the lock held, default the date to the
current time, increment (or create at 0) the process-wide per-timestamp
counter, and return the pair.  The state is the `timehash` mapping. -/
def gettimeseq (dateOpt : Option Int) (now : Int) (th : List (Int × Nat)) :
    (Int × Nat) × List (Int × Nat) :=
  let date := dateOpt.getD now
  match dGet th date with
  | some v => ((date, v + 1), dInsert th date (v + 1))
  | none => ((date, 0), dInsert th date 0)

/-- Run a sequence of `_gettimeseq` calls (the lock serialises concurrent
callers, so a list of calls is the faithful picture within one process),
returning the list of `(timestamp, sequence)` results. -/
def runCalls (now : Int) (th : List (Int × Nat)) : List (Option Int) → List (Int × Nat)
  | [] => []
  | c :: cs =>
    let r := gettimeseq c now th
    r.1 :: runCalls now r.2 cs

/-! ## Filesystem primitives -/

/-- Does a file with the given (subdirectory, name) exist on disk. -/
def diskHas (disk : List DFile) (p : Dir × Str) : Bool :=
  disk.any (fun f => decide (f.dir = p.1 ∧ f.name = p.2))

/-- `os.unlink`: remove the file, `OSError` if it does not exist. -/
def diskUnlink (disk : List DFile) (p : Dir × Str) : Except OiError (List DFile) :=
  if diskHas disk p = true then
    .ok (disk.filter (fun f => decide (¬(f.dir = p.1 ∧ f.name = p.2))))
  else .error .osError

/-- `os.rename`: move the file, `OSError` if the source does not exist; an
existing destination is silently replaced (POSIX semantics). -/
def diskRename (disk : List DFile) (src dst : Dir × Str) : Except OiError (List DFile) :=
  match disk.find? (fun f => decide (f.dir = src.1 ∧ f.name = src.2)) with
  | none => .error .osError
  | some f =>
    .ok (((disk.filter (fun g => decide (¬(g.dir = src.1 ∧ g.name = src.2)))).filter
        (fun g => decide (¬(g.dir = dst.1 ∧ g.name = dst.2)))) ++ [⟨dst.1, dst.2, f.size⟩])

/-! ## The folder scanner `_scanfolder` -/

/-- State threaded through the scan loop: the negative-UID counter
(`nouidcounter`), the primary result (`retval`) and the date-excluded side
set (`date_excludees`). -/
structure ScanState where
  nouid : Int
  retval : MsgList
  excl : MsgList
deriving DecidableEq

/-- The files the scanner considers: the listing of `new/` followed by the
listing of `cur/` (`tmp/` is never listed). -/
def scanFiles (disk : List DFile) : List DFile :=
  disk.filter (fun f => decide (f.dir = Dir.new)) ++
    disk.filter (fun f => decide (f.dir = Dir.cur))

/-- Is the entry skipped as a dot file. -/
def dotfile : Str → Bool
  | [] => false
  | c :: _ => decide (c = '.')

/-- Is the entry skipped by the maximum-size check
(`if maxsize and (os.path.getsize(...) > maxsize)`); a configured 0 is
falsy in Python and disables the check. -/
def sizeSkip (maxsize : Option Nat) (size : Nat) : Bool :=
  match maxsize with
  | none => false
  | some m => decide (m ≠ 0 ∧ size > m)

/-- Is the entry skipped by the UID floor (`min_uid is not None and
uid > 0 and uid < min_uid`). -/
def minUidSkip (minUid : Option Int) (uid : Int) : Bool :=
  match minUid with
  | none => false
  | some m => decide (0 < uid ∧ uid < m)

/-- Is the entry diverted to the date-excluded side set (`min_date is not
None and not self._iswithintime(filename, min_date)`). -/
def dateExcluded (minDate : Option Nat) (name : Str) : Bool :=
  match minDate with
  | none => false
  | some d => !iswithintime name d

/-- One iteration of the scan loop (lines 176-215 of the source). -/
def scanStep (st : Store) (minDate : Option Nat) (minUid : Option Int)
    (s : ScanState) (f : DFile) : ScanState :=
  if dotfile f.name = true then s
  else if sizeSkip st.maxsize f.size = true then s
  else
    let flags := (parseFilename st f.name).2.2.2
    let uc : Int × Int :=
      match fileUid? st f.name with
      | none => (s.nouid, s.nouid - 1)
      | some u => (u, s.nouid)
    let uid := uc.1
    let r : MsgRecord := ⟨flags, (f.dir, f.name)⟩
    if minUidSkip minUid uid = true then { s with nouid := uc.2 }
    else if dateExcluded minDate f.name = true then
      { nouid := uc.2, retval := s.retval, excl := dInsert s.excl uid r }
    else
      { nouid := uc.2, retval := dInsert s.retval uid r, excl := s.excl }

/-- The scan loop over both subdirectory listings. -/
def scanLoop (st : Store) (minDate : Option Nat) (minUid : Option Int)
    (disk : List DFile) : ScanState :=
  (scanFiles disk).foldl (scanStep st minDate minUid) ⟨-1, [], []⟩

/-- The positive UIDs present in the primary result
(`[uid for uid in retval if uid > 0]`). -/
def positiveKeys (d : MsgList) : List Int :=
  (dKeys d).filter (fun k => decide (0 < k))

/-- The re-inclusion pass (lines 216-226): when any positive UIDs were
retained, every date-excluded entry with UID strictly above their minimum
is copied back into the result. -/
def reinclude (retval excl : MsgList) : MsgList :=
  match (positiveKeys retval).min? with
  | none => retval
  | some m => excl.foldl (fun r p => if m < p.1 then dInsert r p.1 p.2 else r) retval

/-- `MaildirFolder._scanfolder`. -/
def scanfolder (st : Store) (minDate : Option Nat) (minUid : Option Int)
    (disk : List DFile) : MsgList :=
  let s := scanLoop st minDate minUid disk
  match minDate with
  | some _ => reinclude s.retval s.excl
  | none => s.retval

/-! ## Writing messages -/

/-- `MaildirFolder.new_message_filename`: a fresh `_gettimeseq` token, the
process id and hostname, the UID marker, the FMD5 marker, and the sorted
flags, with any path separator (`/`) replaced by `self.sep_subst` (`-`). -/
def newMessageFilename (st : MState) (uid : Int) (flagsArg : Str) (date : Option Int) :
    Str × MState :=
  let flags := mkSet flagsArg
  let r := gettimeseq date st.now st.timehash
  let tv := r.1.1
  let ts := r.1.2
  let raw := intToChars tv ++ '_' :: natToChars ts ++ '.' :: natToChars st.pid ++
      '.' :: st.hostname ++ ',' :: 'U' :: '=' :: intToChars uid ++
      fmd5Tag ++ st.store.foldermd5 ++ st.store.infosep :: '2' :: ',' :: flags
  (raw.map (fun c => if c = '/' then '-' else c), { st with timehash := r.2 })

/-- `MaildirFolder.save_to_tmp_file`: exclusive creation in `tmp/`.  The
seven-attempt retry loop only re-tries on `EEXIST`; within one process
state nothing changes between attempts, so it reduces to a single attempt
whose persistent failure is the `OfflineImapError` of severity MESSAGE. -/
def saveToTmp (st : MState) (filename : Str) (msg : Msg) :
    Except OiError (MState × (Dir × Str)) :=
  if diskHas st.disk (Dir.tmp, filename) = true then .error .messageError
  else .ok ({ st with disk := st.disk ++ [⟨Dir.tmp, filename, msg.size⟩] }, (Dir.tmp, filename))

/-- The target subdirectory of `savemessageflags`:
`dir_prefix = 'cur' if 'S' in flags else 'new'`. -/
def smfDir (flags : Str) : Dir :=
  if flags.contains 'S' = true then Dir.cur else Dir.new

/-- The target basename of `savemessageflags`: when the flags actually
changed, strip the existing infostring (the source slices
`filename[:-len(infomatch.group())]`, i.e. drops that many characters from
the end) and append the rebuilt one; otherwise the basename is kept. -/
def smfName (sep : Char) (flags : Str) (r0 : MsgRecord) : Str :=
  if flags ≠ r0.flags then
    (match flagSearch sep r0.filename.2 with
     | some g => r0.filename.2.take (r0.filename.2.length - (g.length + 3))
     | none => r0.filename.2) ++ sep :: '2' :: ',' :: flags
  else r0.filename.2

/-- `MaildirFolder.savemessageflags` (lines 439-478).  Returns the new
state together with a flag recording whether an `os.rename` was performed.
A UID absent from the cache fails the `assert`; a failing rename is
re-raised as an `OfflineImapError` of severity FOLDER. -/
def savemessageflags (st : MState) (uid : Int) (flagsArg : Str) :
    Except OiError (MState × Bool) :=
  let flags := mkSet flagsArg
  match dGet st.messagelist uid with
  | none => .error .assertionError
  | some r0 =>
    let dp := smfDir flags
    let fn := smfName st.store.infosep flags r0
    if (dp, fn) ≠ r0.filename then
      match diskRename st.disk r0.filename (dp, fn) with
      | .error _ => .error .folderError
      | .ok disk' =>
        .ok ({ st with
                disk := disk',
                messagelist := dInsert st.messagelist uid ⟨flags, (dp, fn)⟩ }, true)
    else .ok (st, false)

/-- `MaildirFolder.savemessage` (lines 369-432).  A negative UID is
returned unchanged; a UID already cached degrades to a flags update;
otherwise the message is staged into `tmp/` under a fresh codec filename
and `savemessageflags` relocates it.  The `os.utime` adjustment touches
only the modification time, which is not part of this model. -/
def savemessage (st : MState) (uid : Int) (msg : Msg) (flagsArg : Str)
    (_rtime : Option Int) : Except OiError (MState × Int) :=
  if uid < 0 then .ok (st, uid)
  else if (dGet st.messagelist uid).isSome = true then
    match savemessageflags st uid flagsArg with
    | .error e => .error e
    | .ok (st', _) => .ok (st', uid)
  else
    let messageTimestamp := if st.useMailTimestamp = true then msg.date else none
    let nf := newMessageFilename st uid flagsArg messageTimestamp
    match saveToTmp nf.2 nf.1 msg with
    | .error e => .error e
    | .ok (st2, tmpname) =>
      let st3 := { st2 with
        messagelist := dInsert st2.messagelist uid ⟨mkSet flagsArg, tmpname⟩ }
      match savemessageflags st3 uid flagsArg with
      | .error e => .error e
      | .ok (st4, _) => .ok (st4, uid)

/-- `MaildirFolder.deletemessage` (lines 511-531): unlink the cached path;
on `OSError` re-scan once and, if the UID is found, unlink at the rescanned
path (an error there propagates, skipping the cache removal); if the UID is
not found, treat the message as already deleted.  On every non-raising path
the cache entry is removed. -/
def deletemessage (st : MState) (uid : Int) : Except OiError MState :=
  match dGet st.messagelist uid with
  | none => .error .keyError
  | some r =>
    match diskUnlink st.disk r.filename with
    | .ok disk' => .ok { st with disk := disk', messagelist := dErase st.messagelist uid }
    | .error _ =>
      let newmsglist := scanfolder st.store none none st.disk
      match dGet newmsglist uid with
      | some r2 =>
        match diskUnlink st.disk r2.filename with
        | .ok disk' =>
          .ok { st with disk := disk', messagelist := dErase st.messagelist uid }
        | .error e => .error e
      | none => .ok { st with messagelist := dErase st.messagelist uid }

/-! ## The FMD5 migration utility -/

/-- `hashlib.md5` applied to a Python 3 `str`.  `bytes` are required: the
call raises `TypeError: Strings must be encoded before hashing`.
`migratefmd5` passes `self.name`, a `str` (compare line 69 of the source,
which encodes before hashing), so this models line 539's
`md5(self.name).hexdigest()`. -/
def md5OfPyStr (_s : Str) : Except OiError Str := .error .typeError

/-- Replace every occurrence of `pat` (non-empty) by `repl`, left to right:
Python `str.replace` (fuel-driven on the scanned suffix). -/
def strReplaceAux (pat repl : Str) : Nat → Str → Str
  | _, [] => []
  | 0, s => s
  | fuel + 1, c :: rest =>
    if startsWith pat (c :: rest) = true then
      repl ++ strReplaceAux pat repl fuel ((c :: rest).drop pat.length)
    else c :: strReplaceAux pat repl fuel rest

def strReplace (pat repl s : Str) : Str :=
  if pat = [] then s else strReplaceAux pat repl s.length s

def dirChars : Dir → Str
  | Dir.new => ['n', 'e', 'w']
  | Dir.cur => ['c', 'u', 'r']
  | Dir.tmp => ['t', 'm', 'p']

/-- `MaildirFolder.migratefmd5` (lines 533-566).  The very first statement,
`oldfmd5 = md5(self.name).hexdigest()`, hashes a `str` and therefore raises
`TypeError` in Python 3, before the folder is scanned; the remainder of the
function (re-scan, per-file FMD5 comparison and rename, dry-run guard,
inconsistency warnings) is unreachable.  It is nevertheless embedded below
the failing call, returning the renames performed and the warnings
emitted; the rename is modelled on the file's name (the `FMD5=`
substitution never touches the directory prefix of the path). -/
def migratefmd5 (st : MState) (dryrun : Bool) :
    Except OiError (MState × List (Str × Str) × List Str) :=
  match md5OfPyStr st.name with
  | .error e => .error e
  | .ok oldfmd5 =>
    let msglist := scanfolder st.store none none st.disk
    let step := fun (acc : MState × List (Str × Str) × List Str) (p : Int × MsgRecord) =>
      let d := p.2.filename.1
      let nm := p.2.filename.2
      match fmd5Search (dirChars d ++ '/' :: nm) with
      | none => acc
      | some g =>
        if g = oldfmd5 then
          if dryrun = true then acc
          else
            let nm' := strReplace (fmd5Tag.drop 1 ++ g) (fmd5Tag.drop 1 ++ acc.1.store.foldermd5) nm
            ({ acc.1 with disk := (acc.1.disk.filter
                  (fun f => decide (¬(f.dir = d ∧ f.name = nm)))) ++
                  ((acc.1.disk.filter (fun f => decide (f.dir = d ∧ f.name = nm))).map
                    (fun f => ⟨d, nm', f.size⟩)) },
             acc.2.1 ++ [(nm, nm')], acc.2.2)
        else if g ≠ acc.1.store.foldermd5 then
          (acc.1, acc.2.1, acc.2.2 ++ [nm])
        else acc
    .ok (msglist.foldl step (st, [], []))

/-! ## Dictionary and set lemmas -/

theorem dGet_dInsert_self {α : Type} (d : List (Int × α)) (k : Int) (v : α) :
    dGet (dInsert d k v) k = some v := by
  induction d with
  | nil => simp [dInsert, dGet]
  | cons p ps ih =>
    unfold dInsert
    by_cases h : p.1 = k
    · simp [h, dGet]
    · simp only [if_neg h]
      unfold dGet
      simp only [List.find?, decide_eq_false h]
      exact ih

theorem dGet_dInsert_ne {α : Type} (d : List (Int × α)) (k k' : Int) (v : α)
    (h : k' ≠ k) : dGet (dInsert d k v) k' = dGet d k' := by
  induction d with
  | nil => simp [dInsert, dGet, decide_eq_false (Ne.symm h)]
  | cons p ps ih =>
    unfold dInsert
    by_cases hp : p.1 = k
    · rw [if_pos hp]
      unfold dGet
      simp only [List.find?, decide_eq_false (Ne.symm h),
        decide_eq_false (show ¬p.1 = k' from hp ▸ Ne.symm h)]
    · simp only [if_neg hp]
      unfold dGet
      by_cases hp' : p.1 = k'
      · simp [List.find?, decide_eq_true hp']
      · simp only [List.find?, decide_eq_false hp']
        exact ih

theorem mem_dKeys_dInsert {α : Type} (d : List (Int × α)) (k k' : Int) (v : α) :
    k' ∈ dKeys (dInsert d k v) ↔ k' ∈ dKeys d ∨ k' = k := by
  induction d with
  | nil => simp [dInsert, dKeys]
  | cons p ps ih =>
    unfold dInsert
    by_cases hp : p.1 = k
    · simp only [if_pos hp, dKeys, List.map_cons, List.mem_cons]
      rw [hp]
      tauto
    · simp only [if_neg hp, dKeys, List.map_cons, List.mem_cons]
      rw [show List.map Prod.fst (dInsert ps k v) = dKeys (dInsert ps k v) from rfl, ih]
      rw [show List.map Prod.fst ps = dKeys ps from rfl]
      tauto

theorem mem_dInsert_of_ne {α : Type} (d : List (Int × α)) (k k' : Int) (v w : α)
    (hmem : (k', w) ∈ d) (hne : k' ≠ k) : (k', w) ∈ dInsert d k v := by
  induction d with
  | nil => simp at hmem
  | cons p ps ih =>
    unfold dInsert
    rcases List.mem_cons.mp hmem with h1 | h2
    · by_cases hp : p.1 = k
      · exact absurd (by rw [← h1] at hp; exact hp) hne
      · simp only [if_neg hp]
        exact List.mem_cons.mpr (Or.inl h1)
    · by_cases hp : p.1 = k
      · simp only [if_pos hp]
        exact List.mem_cons.mpr (Or.inr h2)
      · simp only [if_neg hp]
        exact List.mem_cons.mpr (Or.inr (ih h2))

theorem mem_of_mem_dInsert {α : Type} (d : List (Int × α)) (k : Int) (v : α)
    (p : Int × α) (hmem : p ∈ dInsert d k v) : p ∈ d ∨ p = (k, v) := by
  induction d with
  | nil => simpa [dInsert] using hmem
  | cons q ps ih =>
    unfold dInsert at hmem
    by_cases hq : q.1 = k
    · simp only [if_pos hq, List.mem_cons] at hmem
      rcases hmem with h1 | h2
      · exact Or.inr h1
      · exact Or.inl (List.mem_cons.mpr (Or.inr h2))
    · simp only [if_neg hq, List.mem_cons] at hmem
      rcases hmem with h1 | h2
      · exact Or.inl (List.mem_cons.mpr (Or.inl h1))
      · rcases ih h2 with h3 | h4
        · exact Or.inl (List.mem_cons.mpr (Or.inr h3))
        · exact Or.inr h4

theorem dGet_eq_none_iff {α : Type} (d : List (Int × α)) (k : Int) :
    dGet d k = none ↔ k ∉ dKeys d := by
  induction d with
  | nil => simp [dGet, dKeys]
  | cons p ps ih =>
    unfold dGet dKeys
    by_cases hp : p.1 = k
    · simp [List.find?, decide_eq_true hp, hp]
    · simp only [List.find?, decide_eq_false hp, List.map_cons, List.mem_cons]
      rw [show Option.map Prod.snd (List.find? (fun q => decide (q.1 = k)) ps) = dGet ps k
        from rfl, ih]
      rw [show List.map Prod.fst ps = dKeys ps from rfl]
      constructor
      · intro h
        rintro (h1 | h2)
        · exact hp h1.symm
        · exact h h2
      · intro h h2
        exact h (Or.inr h2)

theorem dGet_isSome_iff {α : Type} (d : List (Int × α)) (k : Int) :
    (dGet d k).isSome = true ↔ k ∈ dKeys d := by
  rw [← not_iff_not, ← dGet_eq_none_iff]
  cases dGet d k <;> simp

theorem dGet_dErase_self {α : Type} (d : List (Int × α)) (k : Int) :
    dGet (dErase d k) k = none := by
  induction d with
  | nil => simp [dGet, dErase]
  | cons p ps ih =>
    unfold dErase at ih ⊢
    by_cases hp : p.1 = k
    · simp only [List.filter_cons]
      rw [if_neg (by simp [hp])]
      exact ih
    · simp only [List.filter_cons]
      rw [if_pos (by simp [hp])]
      unfold dGet
      simp only [List.find?, decide_eq_false hp]
      exact ih

theorem mem_setInsert (c a : Char) (l : Str) :
    c ∈ setInsert a l ↔ c = a ∨ c ∈ l := by
  induction l with
  | nil => simp [setInsert]
  | cons d ds ih =>
    unfold setInsert
    by_cases h1 : a < d
    · rw [if_pos h1]
      simp only [List.mem_cons]
    · by_cases h2 : a = d
      · rw [if_neg h1, if_pos h2, h2]
        simp only [List.mem_cons]
        tauto
      · rw [if_neg h1, if_neg h2]
        simp only [List.mem_cons, ih]
        tauto

theorem mem_mkSet (c : Char) (l : Str) : c ∈ mkSet l ↔ c ∈ l := by
  induction l with
  | nil => simp [mkSet]
  | cons d ds ih =>
    unfold mkSet at ih ⊢
    rw [List.foldr_cons, mem_setInsert, ih, List.mem_cons]

theorem contains_mkSet (c : Char) (l : Str) :
    (mkSet l).contains c = true ↔ c ∈ l := by
  rw [show (List.contains (mkSet l) c = true) ↔ c ∈ mkSet l from List.elem_iff, mem_mkSet]

/-! ## The unique token generator: C9 -/

/-- The `timehash` state after a list of explicit-timestamp calls: each
timestamp maps to (number of calls made with it) minus one. -/
def TH (l : List Int) (th : List (Int × Nat)) : Prop :=
  ∀ d : Int, dGet th d = if l.count d = 0 then none else some (l.count d - 1)

theorem th_nil : TH [] [] := by
  intro d
  simp [dGet]

theorem gettimeseq_step (now t : Int) (l : List Int) (th : List (Int × Nat))
    (hth : TH l th) :
    (gettimeseq (some t) now th).1 = (t, l.count t) ∧
    TH (l ++ [t]) (gettimeseq (some t) now th).2 := by
  have h := hth t
  by_cases hc : l.count t = 0
  · rw [if_pos hc] at h
    unfold gettimeseq
    simp only [Option.getD_some, h]
    refine ⟨by rw [hc], ?_⟩
    intro d
    by_cases hd : d = t
    · subst hd
      rw [dGet_dInsert_self]
      simp [List.count_append, hc]
    · rw [dGet_dInsert_ne _ _ _ _ hd, hth d]
      have : (l ++ [t]).count d = l.count d := by
        simp [List.count_append, List.count_singleton]
        intro hdt
        exact absurd hdt.symm hd
      rw [this]
  · rw [if_neg hc] at h
    unfold gettimeseq
    simp only [Option.getD_some, h]
    have hcount : l.count t - 1 + 1 = l.count t := Nat.succ_pred_eq_of_pos (Nat.pos_of_ne_zero hc)
    refine ⟨by rw [hcount], ?_⟩
    intro d
    by_cases hd : d = t
    · rw [hd, dGet_dInsert_self]
      have h2 : (l ++ [t]).count t = l.count t + 1 := by simp [List.count_append]
      rw [h2]
      simp [hcount]
    · rw [dGet_dInsert_ne _ _ _ _ hd, hth d]
      have : (l ++ [t]).count d = l.count d := by
        simp [List.count_append, List.count_singleton]
        intro hdt
        exact absurd hdt.symm hd
      rw [this]

theorem runCalls_getElem (now : Int) :
    ∀ (calls : List Int) (l : List Int) (th : List (Int × Nat)), TH l th →
      ∀ (i : Nat) (t : Int), calls[i]? = some t →
        (runCalls now th (calls.map some))[i]? = some (t, (l ++ calls.take i).count t) := by
  intro calls
  induction calls with
  | nil =>
    intro l th _ i t hget
    simp at hget
  | cons c cs ih =>
    intro l th hth i t hget
    have hstep := gettimeseq_step now c l th hth
    cases i with
    | zero =>
      simp only [List.getElem?_cons_zero, Option.some.injEq] at hget
      subst hget
      simp only [List.map_cons, runCalls, List.getElem?_cons_zero, hstep.1,
        List.take_zero, List.append_nil]
    | succ i =>
      simp only [List.getElem?_cons_succ] at hget
      have := ih (l ++ [c]) (gettimeseq (some c) now th).2 hstep.2 i t hget
      simp only [List.map_cons, runCalls, List.getElem?_cons_succ]
      rw [this, List.take_succ_cons]
      rw [List.append_assoc, List.singleton_append]

/-- C9: within one process (the mutex serialises the calls), the sequence
numbers handed out by `_gettimeseq` for a given explicit timestamp count
the earlier calls with that timestamp: the `i`-th call returns
`(tᵢ, number of earlier calls with timestamp tᵢ)`.  Hence the first call
for a new timestamp yields sequence 0, each later call for that timestamp
yields the previously returned sequence plus one (the count grows by
exactly one per call), the sequences for a timestamp form a contiguous
range starting at 0, and no two calls with the same timestamp ever return
the same `(timestamp, sequence)` pair. -/
theorem c9_gettimeseq_unique_contiguous (now : Int) (calls : List Int) :
    (∀ (i : Nat) (t : Int), calls[i]? = some t →
      (runCalls now [] (calls.map some))[i]? = some (t, (calls.take i).count t))
    ∧ ∀ (i j : Nat) (t : Int), i < j → calls[i]? = some t → calls[j]? = some t →
      (runCalls now [] (calls.map some))[i]? ≠ (runCalls now [] (calls.map some))[j]? := by
  constructor
  · intro i t hget
    have := runCalls_getElem now calls [] [] th_nil i t hget
    simpa using this
  · intro i j t hij hi hj heq
    have h1 := runCalls_getElem now calls [] [] th_nil i t hi
    have h2 := runCalls_getElem now calls [] [] th_nil j t hj
    simp only [List.nil_append] at h1 h2
    rw [h1, h2, Option.some.injEq, Prod.mk.injEq] at heq
    have hcounts : (calls.take i).count t = (calls.take j).count t := heq.2
    have hsucc : (calls.take (i + 1)).count t = (calls.take i).count t + 1 := by
      rw [List.take_succ, hi]
      simp [List.count_append]
    have hle : (calls.take (i + 1)).count t ≤ (calls.take j).count t :=
      (List.take_prefix_take_left calls hij).sublist.count_le t
    omega

/-- C9 witness: four calls with explicit timestamps 5, 5, 7, 5 starting
from a fresh process state. -/
theorem c9_witness :
    (runCalls 0 [] ([5, 5, 7, 5].map some))[1]? = some (5, 1) ∧
    (runCalls 0 [] (([5, 5, 7, 5] : List Int).map some))[1]? ≠
      (runCalls 0 [] (([5, 5, 7, 5] : List Int).map some))[3]? :=
  ⟨by
    have := (c9_gettimeseq_unique_contiguous 0 [5, 5, 7, 5]).1 1 5 (by decide)
    simpa using this,
   (c9_gettimeseq_unique_contiguous 0 [5, 5, 7, 5]).2 1 3 5 (by decide) (by decide) (by decide)⟩

/-! ## Claim C8: the FMD5 migration utility -/

/-- C8: `migratefmd5` never reaches the scan/rename logic: its first
statement hashes the folder name, a Python 3 `str`, and `hashlib.md5`
raises `TypeError` on a `str`.  Every call fails with that error, for
every folder state and in dry-run mode alike, renaming nothing and
reporting nothing. -/
theorem c8_migratefmd5_always_raises (st : MState) (dryrun : Bool) :
    migratefmd5 st dryrun = .error .typeError := rfl

/-! ## Claim C1: UID resolution in `_parse_filename` -/

/-- Store with an all-`a` 32-hex-character folder fingerprint. -/
def c1Store : Store := ⟨List.replicate 32 'a', ':', none⟩

/-- A filename whose FMD5 marker value is 33 `a`s: it differs from the
store's fingerprint but contains it as a substring. -/
def c1Name : Str := ("123,U=7,FMD5=").data ++ List.replicate 33 'a' ++ (":2,S").data

/-- C1 counterexample: `_parse_filename` tests `',FMD5=' + self._foldermd5
in filename`, a substring check, not an equality of the marker's value.
For a filename whose `FMD5=` marker value is the store's 32-hex-character
fingerprint extended by one more hex character, the marker's value (as
recovered by the source's own `FMD5=([a-fA-F0-9]+)` search) differs from
the store's fingerprint, yet the embedded UID 7 is returned rather than
the unresolved `None` the claim requires. -/
theorem c1_counterexample :
    (parseFilename c1Store c1Name).2.1 = some 7 ∧
    fmd5Search c1Name = some (List.replicate 33 'a') ∧
    ¬List.replicate 33 'a' = c1Store.foldermd5 := by
  refine ⟨by decide, by decide, by decide⟩

/-- C1 amended: decoding yields an unresolved (`None`) UID whenever the
string `,FMD5=<store fingerprint>` does not occur in the filename — in
particular whenever the FMD5 marker is absent — even when a syntactically
valid `,U=<digits>` marker exists; the embedded UID is returned as an
integer exactly when that substring occurs and a UID marker is found.
(The source tests substring containment, so a marker whose value strictly
extends the store's fingerprint by further hex characters also resolves
the UID; marker-value equality is not required.) -/
theorem c1_uid_needs_fmd5_substring (st : Store) (name : Str) :
    (∀ n : Nat, (parseFilename st name).2.1 = some n ↔
      isSubstr (fmd5Tag ++ st.foldermd5) name = true ∧ uidSearch name = some n)
    ∧ (isSubstr (fmd5Tag ++ st.foldermd5) name = false →
      (parseFilename st name).2.1 = none) := by
  constructor
  · intro n
    unfold parseFilename
    by_cases h : isSubstr (fmd5Tag ++ st.foldermd5) name = true
    · simp [h]
    · simp [h]
  · intro h
    unfold parseFilename
    simp [h]

/-- C1 witness: with fingerprint `ab`, a filename carrying `,FMD5=ab` and
`,U=7` resolves to UID 7, and the same filename without the FMD5 marker is
unresolved despite its valid UID marker. -/
theorem c1_witness :
    (parseFilename ⟨('a' :: ['b']), ':', none⟩ ("1_2.3.h,U=7,FMD5=ab:2,").data).2.1 = some 7 ∧
    (parseFilename ⟨('a' :: ['b']), ':', none⟩ ("1_2.3.h,U=7:2,").data).2.1 = none :=
  ⟨((c1_uid_needs_fmd5_substring ⟨('a' :: ['b']), ':', none⟩
      ("1_2.3.h,U=7,FMD5=ab:2,").data).1 7).mpr (by refine ⟨by decide, by decide⟩),
   (c1_uid_needs_fmd5_substring ⟨('a' :: ['b']), ':', none⟩
      ("1_2.3.h,U=7:2,").data).2 (by decide)⟩

/-! ## Claim C5: `savemessage` with a non-positive UID -/

/-- A minimal folder state used by concrete witnesses: fingerprint `ab`,
separator `:`, empty cache and disk. -/
def baseState : MState :=
  { store := ⟨('a' :: ['b']), ':', none⟩, name := [], messagelist := [], disk := [],
    timehash := [], now := 100, pid := 1, hostname := ['h'], useMailTimestamp := false }

/-- C5 counterexample: the source's early return tests `uid < 0`, not
`uid <= 0`.  Saving an uncached message with UID 0 does not return
unchanged: it creates a file on disk (staged to `tmp/` and renamed into
`new/`) and adds a cache entry, refuting the claim's `uid <= 0` scope at
the concrete input `uid = 0`. -/
theorem c5_counterexample :
    Except.map (fun p => (p.2, p.1.disk.length, p.1.messagelist.length))
      (savemessage baseState 0 ⟨none, 4⟩ [] none) = .ok (0, 1, 1) ∧
    baseState.disk.length = 0 ∧ baseState.messagelist.length = 0 := by
  refine ⟨rfl, rfl, rfl⟩

/-- C5 amended: for every strictly negative UID, `savemessage` returns the
same UID unchanged, creates no file on disk and leaves the message-list
cache unchanged (the state is returned as is). -/
theorem c5_negative_uid_unchanged (st : MState) (uid : Int) (msg : Msg)
    (flagsArg : Str) (rtime : Option Int) (h : uid < 0) :
    savemessage st uid msg flagsArg rtime = .ok (st, uid) := by
  unfold savemessage
  rw [if_pos h]

/-- C5 witness: saving with UID −1 into the empty base state. -/
theorem c5_witness :
    savemessage baseState (-1) ⟨none, 4⟩ [] none = .ok (baseState, -1) :=
  c5_negative_uid_unchanged baseState (-1) ⟨none, 4⟩ [] none (by decide)

/-! ## Flag/state transition lemmas: C4 and C2 -/

theorem savemessageflags_some (st : MState) (uid : Int) (flagsArg : Str) (r0 : MsgRecord)
    (h : dGet st.messagelist uid = some r0) :
    savemessageflags st uid flagsArg =
      if (smfDir (mkSet flagsArg), smfName st.store.infosep (mkSet flagsArg) r0) ≠
          r0.filename then
        match diskRename st.disk r0.filename
            (smfDir (mkSet flagsArg), smfName st.store.infosep (mkSet flagsArg) r0) with
        | .error _ => .error .folderError
        | .ok disk' =>
          .ok ({ st with
                  disk := disk',
                  messagelist := dInsert st.messagelist uid
                    ⟨mkSet flagsArg, (smfDir (mkSet flagsArg),
                      smfName st.store.infosep (mkSet flagsArg) r0)⟩ }, true)
      else .ok (st, false) := by
  unfold savemessageflags
  rw [h]

theorem diskHas_of_append_dst (disk : List DFile) (dst : Dir × Str) (sz : Nat) :
    diskHas (disk ++ [⟨dst.1, dst.2, sz⟩]) dst = true := by
  unfold diskHas
  rw [List.any_append]
  simp

theorem diskRename_of_has (disk : List DFile) (src dst : Dir × Str)
    (h : diskHas disk src = true) :
    ∃ disk', diskRename disk src dst = .ok disk' ∧ diskHas disk' dst = true ∧
      (¬dst = src → diskHas disk' src = false) := by
  unfold diskHas at h
  rw [List.any_eq_true] at h
  obtain ⟨f, hf, hfp⟩ := h
  unfold diskRename
  cases hfind : disk.find? (fun f => decide (f.dir = src.1 ∧ f.name = src.2)) with
  | none =>
    rw [List.find?_eq_none] at hfind
    exact absurd hfp (by simpa using hfind f hf)
  | some g =>
    refine ⟨_, rfl, diskHas_of_append_dst _ _ _, ?_⟩
    intro hne
    unfold diskHas
    rw [Bool.eq_false_iff]
    intro hany
    rw [List.any_eq_true] at hany
    obtain ⟨e, he, hep⟩ := hany
    simp only [decide_eq_true_eq] at hep
    rcases List.mem_append.mp he with hmem | hmem
    · have := List.of_mem_filter (List.mem_of_mem_filter hmem)
      simp only [decide_eq_true_eq] at this
      exact this hep
    · simp only [List.mem_singleton] at hmem
      subst hmem
      simp only at hep
      exact hne (Prod.ext hep.1.symm hep.2.symm).symm

/-- The counterexample state for C4: the cache knows UID 1 with flags
`{S}` at `new/m:2,S` (exactly what a scan of that on-disk file yields: a
seen message still sitting in `new/`). -/
def c4State : MState :=
  { baseState with
      messagelist := [(1, ⟨['S'], (Dir.new, ("m:2,S").data)⟩)]
      disk := [⟨Dir.new, ("m:2,S").data, 1⟩] }

/-- The state after the first `savemessageflags(1, {'S'})` call on
`c4State`: the file has moved to `cur/` and the cache follows. -/
def c4State1 : MState :=
  { baseState with
      messagelist := [(1, ⟨['S'], (Dir.cur, ("m:2,S").data)⟩)]
      disk := [⟨Dir.cur, ("m:2,S").data, 1⟩] }

/-- C4 counterexample: calling `savemessageflags` with flags equal to the
cached flag set can still perform a rename.  On `c4State` the cached flags
for UID 1 are exactly `{'S'}` (the canonical set of the argument), yet the
call renames the file (the returned performed-rename bit is `true`),
because the flag-determined subdirectory `cur` differs from the file's
current subdirectory `new`.  This refutes the claim's first conjunct
("performs no filesystem operation"). -/
theorem c4_counterexample :
    dGet c4State.messagelist 1 = some ⟨mkSet ['S'], (Dir.new, ("m:2,S").data)⟩ ∧
    savemessageflags c4State 1 ['S'] = .ok (c4State1, true) := by
  exact ⟨rfl, rfl⟩

/-- C4 amended: (1) if the flags argument equals the cached flag set AND
the cached filename already lies in the subdirectory determined by the
flags (`cur` iff Seen), `savemessageflags` performs no rename and returns
the state unchanged; (2) of two successive `savemessageflags` calls with
the same uid and the same flag set, only the first may perform a rename:
whatever the first call did, the second performs none and leaves the state
unchanged. -/
theorem c4_unchanged_flags_second_call_noop :
    (∀ (st : MState) (uid : Int) (flagsArg : Str) (r : MsgRecord),
      dGet st.messagelist uid = some r → mkSet flagsArg = r.flags →
      r.filename.1 = smfDir (mkSet flagsArg) →
      savemessageflags st uid flagsArg = .ok (st, false))
    ∧ ∀ (st st1 : MState) (uid : Int) (flagsArg : Str) (b : Bool),
      savemessageflags st uid flagsArg = .ok (st1, b) →
      savemessageflags st1 uid flagsArg = .ok (st1, false) := by
  constructor
  · intro st uid flagsArg r h hflags hdir
    rw [savemessageflags_some st uid flagsArg r h]
    have hfn : smfName st.store.infosep (mkSet flagsArg) r = r.filename.2 := by
      unfold smfName
      rw [if_neg (by rw [hflags]; simp)]
    have heq : (smfDir (mkSet flagsArg), smfName st.store.infosep (mkSet flagsArg) r) =
        r.filename := by
      rw [hfn, ← hdir]
    rw [if_neg (not_not_intro heq)]
  · intro st st1 uid flagsArg b hrun
    cases hget : dGet st.messagelist uid with
    | none =>
      unfold savemessageflags at hrun
      rw [hget] at hrun
      exact absurd hrun (by simp)
    | some r0 =>
      rw [savemessageflags_some st uid flagsArg r0 hget] at hrun
      by_cases hcond :
          (smfDir (mkSet flagsArg), smfName st.store.infosep (mkSet flagsArg) r0) ≠
            r0.filename
      · rw [if_pos hcond] at hrun
        cases hren : diskRename st.disk r0.filename
            (smfDir (mkSet flagsArg), smfName st.store.infosep (mkSet flagsArg) r0) with
        | error e =>
          rw [hren] at hrun
          exact absurd hrun (by simp)
        | ok disk' =>
          rw [hren] at hrun
          simp only [Except.ok.injEq, Prod.mk.injEq] at hrun
          obtain ⟨hst1, _⟩ := hrun
          have hget2 : dGet st1.messagelist uid =
              some ⟨mkSet flagsArg, (smfDir (mkSet flagsArg),
                smfName st.store.infosep (mkSet flagsArg) r0)⟩ := by
            rw [← hst1]
            exact dGet_dInsert_self st.messagelist uid _
          rw [savemessageflags_some st1 uid flagsArg _ hget2]
          have hfn2 : smfName st1.store.infosep (mkSet flagsArg)
              ⟨mkSet flagsArg, (smfDir (mkSet flagsArg),
                smfName st.store.infosep (mkSet flagsArg) r0)⟩ =
              smfName st.store.infosep (mkSet flagsArg) r0 := by
            unfold smfName
            rw [if_neg (by simp)]
          rw [if_neg (not_not_intro (by rw [hfn2]))]
      · rw [if_neg hcond] at hrun
        simp only [Except.ok.injEq, Prod.mk.injEq] at hrun
        obtain ⟨hst1, _⟩ := hrun
        rw [← hst1]
        rw [savemessageflags_some st uid flagsArg r0 hget, if_neg hcond]

/-- The state for the C4 witness's first conjunct: flags `{S}` cached and
the file already in `cur/`. -/
def c4Good : MState :=
  { baseState with
      messagelist := [(1, ⟨['S'], (Dir.cur, ("m:2,S").data)⟩)]
      disk := [⟨Dir.cur, ("m:2,S").data, 1⟩] }

/-- C4 witness: on `c4Good` a call with the cached flags and matching
subdirectory is a no-op, and after the first call on `c4State` the second
identical call performs no rename. -/
theorem c4_witness :
    savemessageflags c4Good 1 ['S'] = .ok (c4Good, false) ∧
    savemessageflags c4State1 1 ['S'] = .ok (c4State1, false) :=
  ⟨c4_unchanged_flags_second_call_noop.1 c4Good 1 ['S']
      ⟨['S'], (Dir.cur, ("m:2,S").data)⟩ rfl rfl (by decide),
   c4_unchanged_flags_second_call_noop.2 c4State c4State1 1 ['S'] true rfl⟩

theorem smfDir_eq_cur_iff (flagsArg : Str) :
    smfDir (mkSet flagsArg) = Dir.cur ↔ 'S' ∈ flagsArg := by
  unfold smfDir
  by_cases hc : (mkSet flagsArg).contains 'S' = true
  · rw [if_pos hc]
    simp only [true_iff]
    exact (contains_mkSet 'S' flagsArg).mp hc
  · rw [if_neg hc]
    constructor
    · intro hh
      exact absurd hh (by decide)
    · intro hs
      exact absurd ((contains_mkSet 'S' flagsArg).mpr hs) hc

theorem smfDir_cur_or_new (flags : Str) :
    smfDir flags = Dir.cur ∨ smfDir flags = Dir.new := by
  unfold smfDir
  by_cases hc : flags.contains 'S' = true
  · rw [if_pos hc]
    exact Or.inl rfl
  · rw [if_neg hc]
    exact Or.inr rfl

/-- C2: after every successful `savemessageflags(uid, flags)` call on a
cached UID whose recorded path exists on disk, the cache holds a record
for that UID whose path is in `cur` exactly when `'S'` is a member of the
given flags (and in `new` otherwise), that path exists on disk, and when a
rename was performed the old path is gone — the cache's filename field
agrees with the actual on-disk location. -/
theorem c2_seen_flag_determines_subdir (st : MState) (uid : Int) (flagsArg : Str)
    (r : MsgRecord) (h : dGet st.messagelist uid = some r)
    (hdisk : diskHas st.disk r.filename = true) :
    ∃ st' b r', savemessageflags st uid flagsArg = .ok (st', b) ∧
      dGet st'.messagelist uid = some r' ∧
      (r'.filename.1 = Dir.cur ↔ 'S' ∈ flagsArg) ∧
      (r'.filename.1 = Dir.cur ∨ r'.filename.1 = Dir.new) ∧
      diskHas st'.disk r'.filename = true ∧
      (b = true → diskHas st'.disk r.filename = false) := by
  by_cases hcond :
      (smfDir (mkSet flagsArg), smfName st.store.infosep (mkSet flagsArg) r) ≠ r.filename
  · obtain ⟨disk', hren, hdst, hsrc⟩ := diskRename_of_has st.disk r.filename
      (smfDir (mkSet flagsArg), smfName st.store.infosep (mkSet flagsArg) r) hdisk
    refine ⟨{ st with
        disk := disk'
        messagelist := dInsert st.messagelist uid ⟨mkSet flagsArg,
          (smfDir (mkSet flagsArg), smfName st.store.infosep (mkSet flagsArg) r)⟩ },
      true, ⟨mkSet flagsArg, (smfDir (mkSet flagsArg),
      smfName st.store.infosep (mkSet flagsArg) r)⟩, ?_, ?_, ?_, ?_, ?_, ?_⟩
    · rw [savemessageflags_some st uid flagsArg r h, if_pos hcond, hren]
    · exact dGet_dInsert_self st.messagelist uid _
    · exact smfDir_eq_cur_iff flagsArg
    · exact smfDir_cur_or_new (mkSet flagsArg)
    · exact hdst
    · intro _
      exact hsrc hcond
  · have hceq : (smfDir (mkSet flagsArg), smfName st.store.infosep (mkSet flagsArg) r) =
        r.filename := not_not.mp hcond
    refine ⟨st, false, r, ?_, h, ?_, ?_, hdisk, ?_⟩
    · rw [savemessageflags_some st uid flagsArg r h, if_neg hcond]
    · rw [← hceq]
      exact smfDir_eq_cur_iff flagsArg
    · rw [← hceq]
      exact smfDir_cur_or_new (mkSet flagsArg)
    · intro hb
      exact absurd hb (by decide)

/-- C2 witness: on `c4State` (UID 1 cached at `new/m:2,S`, file present)
setting flags `{'S'}` yields a state whose cached path for UID 1 is in
`cur`, present on disk, with the old path gone. -/
theorem c2_witness :
    ∃ st' b r', savemessageflags c4State 1 ['S'] = .ok (st', b) ∧
      dGet st'.messagelist 1 = some r' ∧
      (r'.filename.1 = Dir.cur ↔ 'S' ∈ ['S']) ∧
      (r'.filename.1 = Dir.cur ∨ r'.filename.1 = Dir.new) ∧
      diskHas st'.disk r'.filename = true ∧
      (b = true → diskHas st'.disk (⟨['S'], (Dir.new, ("m:2,S").data)⟩ : MsgRecord).filename
        = false) :=
  c2_seen_flag_determines_subdir c4State 1 ['S'] ⟨['S'], (Dir.new, ("m:2,S").data)⟩
    rfl (by decide)

/-! ## Claim C7: `deletemessage` -/

theorem dGet_mem {α : Type} (d : List (Int × α)) (k : Int) (v : α)
    (h : dGet d k = some v) : (k, v) ∈ d := by
  unfold dGet at h
  cases hf : d.find? (fun p => decide (p.1 = k)) with
  | none =>
    rw [hf] at h
    simp at h
  | some p =>
    rw [hf] at h
    simp at h
    have hm := List.mem_of_find?_eq_some hf
    have hp := List.find?_some hf
    simp only [decide_eq_true_eq] at hp
    have : p = (k, v) := Prod.ext hp h
    rw [← this]
    exact hm

theorem diskHas_of_mem_scanFiles (disk : List DFile) (f : DFile)
    (hf : f ∈ scanFiles disk) : diskHas disk (f.dir, f.name) = true := by
  unfold diskHas
  rw [List.any_eq_true]
  refine ⟨f, ?_, by simp⟩
  unfold scanFiles at hf
  rcases List.mem_append.mp hf with hm | hm
  · exact List.mem_of_mem_filter hm
  · exact List.mem_of_mem_filter hm

theorem scanLoop_retval_on_disk (st : Store) (minDate : Option Nat) (minUid : Option Int)
    (disk : List DFile) :
    ∀ (files : List DFile) (s0 : ScanState),
      (∀ p ∈ s0.retval, diskHas disk p.2.filename = true) →
      (∀ f ∈ files, diskHas disk (f.dir, f.name) = true) →
      ∀ p ∈ (files.foldl (scanStep st minDate minUid) s0).retval,
        diskHas disk p.2.filename = true := by
  intro files
  induction files with
  | nil =>
    intro s0 h0 _ p hp
    exact h0 p hp
  | cons f fs ih =>
    intro s0 h0 hfiles p hp
    refine ih (scanStep st minDate minUid s0 f) ?_ (fun g hg => hfiles g (List.mem_cons.mpr
      (Or.inr hg))) p hp
    intro q hq
    unfold scanStep at hq
    by_cases h1 : dotfile f.name = true
    · rw [if_pos h1] at hq
      exact h0 q hq
    · rw [if_neg h1] at hq
      by_cases h2 : sizeSkip st.maxsize f.size = true
      · rw [if_pos h2] at hq
        exact h0 q hq
      · rw [if_neg h2] at hq
        by_cases h3 : minUidSkip minUid (match fileUid? st f.name with
            | none => (s0.nouid, s0.nouid - 1)
            | some u => (u, s0.nouid)).1 = true
        · rw [if_pos h3] at hq
          exact h0 q hq
        · rw [if_neg h3] at hq
          by_cases h4 : dateExcluded minDate f.name = true
          · rw [if_pos h4] at hq
            exact h0 q hq
          · rw [if_neg h4] at hq
            rcases mem_of_mem_dInsert _ _ _ q hq with hm | hm
            · exact h0 q hm
            · rw [hm]
              exact hfiles f (List.mem_cons.mpr (Or.inl rfl))

theorem scanfolder_none_on_disk (st : Store) (disk : List DFile) (uid : Int)
    (r2 : MsgRecord) (h : dGet (scanfolder st none none disk) uid = some r2) :
    diskHas disk r2.filename = true := by
  unfold scanfolder at h
  have hmem := dGet_mem _ _ _ h
  exact scanLoop_retval_on_disk st none none disk (scanFiles disk) ⟨-1, [], []⟩
    (by intro p hp; simp at hp) (fun f hf => diskHas_of_mem_scanFiles disk f hf)
    (uid, r2) hmem

/-- C7: `deletemessage` on a cached UID always succeeds and always removes
the cache entry.  When the cached path is already gone from disk, the
mailbox is re-scanned once: if the re-scan locates the UID, the unlink is
retried at the (possibly different) re-scanned path, and if it does not,
the call succeeds silently without touching the disk. -/
theorem c7_delete_rescan_silent (st : MState) (uid : Int) (r : MsgRecord)
    (h : dGet st.messagelist uid = some r) :
    ∃ st', deletemessage st uid = .ok st' ∧
      dGet st'.messagelist uid = none ∧
      st'.messagelist = dErase st.messagelist uid ∧
      (diskHas st.disk r.filename = false →
        (dGet (scanfolder st.store none none st.disk) uid = none → st'.disk = st.disk) ∧
        ∀ r2, dGet (scanfolder st.store none none st.disk) uid = some r2 →
          diskUnlink st.disk r2.filename = .ok st'.disk) := by
  cases hun : diskUnlink st.disk r.filename with
  | ok disk' =>
    have hhas : diskHas st.disk r.filename = true := by
      unfold diskUnlink at hun
      by_cases hd : diskHas st.disk r.filename = true
      · exact hd
      · rw [if_neg hd] at hun
        exact absurd hun (by simp)
    refine ⟨{ st with disk := disk', messagelist := dErase st.messagelist uid }, ?_,
      dGet_dErase_self st.messagelist uid, rfl, ?_⟩
    · unfold deletemessage
      simp only [h, hun]
    · intro hfalse
      rw [hhas] at hfalse
      exact absurd hfalse (by simp)
  | error e =>
    have hhas : diskHas st.disk r.filename = false := by
      unfold diskUnlink at hun
      by_cases hd : diskHas st.disk r.filename = true
      · rw [if_pos hd] at hun
        exact absurd hun (by simp)
      · exact Bool.eq_false_iff.mpr hd
    cases hscan : dGet (scanfolder st.store none none st.disk) uid with
    | some r2 =>
      have hr2 : diskHas st.disk r2.filename = true :=
        scanfolder_none_on_disk st.store st.disk uid r2 hscan
      have hok : diskUnlink st.disk r2.filename =
          .ok (st.disk.filter (fun f => decide (¬(f.dir = r2.filename.1 ∧
            f.name = r2.filename.2)))) := by
        unfold diskUnlink
        rw [if_pos hr2]
      refine ⟨{ st with
          disk := st.disk.filter (fun f => decide (¬(f.dir = r2.filename.1 ∧
            f.name = r2.filename.2)))
          messagelist := dErase st.messagelist uid }, ?_,
        dGet_dErase_self st.messagelist uid, rfl, ?_⟩
      · unfold deletemessage
        simp only [h, hun, hscan, hok]
      · intro _
        constructor
        · intro hnone
          exact absurd hnone (by simp)
        · intro r2' h2
          simp only [Option.some.injEq] at h2
          rw [← h2]
          exact hok
    | none =>
      refine ⟨{ st with messagelist := dErase st.messagelist uid }, ?_,
        dGet_dErase_self st.messagelist uid, rfl, ?_⟩
      · unfold deletemessage
        simp only [h, hun, hscan]
      · intro _
        constructor
        · intro _
          rfl
        · intro r2' h2
          exact absurd h2 (by simp)

/-- C7 witness: UID 1 is cached at `cur/a` but no such file exists and the
mailbox is empty; `deletemessage` succeeds silently, removes the cache
entry and leaves the (empty) disk untouched. -/
theorem c7_witness :
    ∃ st', deletemessage { baseState with
        messagelist := [(1, ⟨[], (Dir.cur, ['a'])⟩)] } 1 = .ok st' ∧
      dGet st'.messagelist 1 = none ∧
      st'.messagelist = dErase [(1, (⟨[], (Dir.cur, ['a'])⟩ : MsgRecord))] 1 ∧
      (diskHas ({ baseState with
          messagelist := [(1, ⟨[], (Dir.cur, ['a'])⟩)] } : MState).disk
          (⟨[], (Dir.cur, ['a'])⟩ : MsgRecord).filename = false →
        (dGet (scanfolder baseState.store none none baseState.disk) 1 = none →
          st'.disk = baseState.disk) ∧
        ∀ r2, dGet (scanfolder baseState.store none none baseState.disk) 1 = some r2 →
          diskUnlink baseState.disk r2.filename = .ok st'.disk) :=
  c7_delete_rescan_silent { baseState with
      messagelist := [(1, ⟨[], (Dir.cur, ['a'])⟩)] } 1 ⟨[], (Dir.cur, ['a'])⟩ rfl

/-! ## Claim C6: flag round-trip through the codec -/

/-- The defined Maildir flag alphabet (source lines 159-161): the standard
upper-case flags D, F, R, S, T plus lower-case letters for custom flags. -/
def flagAlpha (c : Char) : Bool :=
  decide (c = 'D' ∨ c = 'F' ∨ c = 'R' ∨ c = 'S' ∨ c = 'T' ∨ ('a' ≤ c ∧ c ≤ 'z'))

theorem flagAlpha_word (c : Char) (h : flagAlpha c = true) : isWordChar c = true := by
  unfold flagAlpha at h
  unfold isWordChar
  simp only [decide_eq_true_eq] at h ⊢
  rcases h with h | h | h | h | h | h
  · rw [h]; decide
  · rw [h]; decide
  · rw [h]; decide
  · rw [h]; decide
  · rw [h]; decide
  · exact Or.inr (Or.inl h)

theorem flagAlpha_ne_slash (c : Char) (h : flagAlpha c = true) : ¬c = '/' := by
  intro hc
  rw [hc] at h
  exact absurd h (by decide)

theorem flagAlpha_ne_sep (c sep : Char) (hsep : sep = ':' ∨ sep = '!')
    (h : flagAlpha c = true) : ¬c = sep := by
  rcases hsep with hs | hs <;> rw [hs] <;> intro hc <;> rw [hc] at h <;>
    exact absurd h (by decide)

theorem digitChar_mem_natToCharsAux (fuel n : Nat) (c : Char)
    (h : c ∈ natToCharsAux fuel n) : isDigitChar c = true := by
  induction fuel generalizing n with
  | zero => simp [natToCharsAux] at h
  | succ fuel ih =>
    unfold natToCharsAux at h
    by_cases hn : n < 10
    · rw [if_pos hn] at h
      simp only [List.mem_singleton] at h
      subst h
      clear ih
      revert hn
      revert n
      decide
    · rw [if_neg hn] at h
      rcases List.mem_append.mp h with hm | hm
      · exact ih (n / 10) hm
      · simp only [List.mem_singleton] at hm
        subst hm
        clear ih
        have hlt : n % 10 < 10 := Nat.mod_lt n (by omega)
        revert hlt
        generalize n % 10 = m
        revert m
        decide

theorem digit_mem_natToChars (n : Nat) (c : Char) (h : c ∈ natToChars n) :
    isDigitChar c = true :=
  digitChar_mem_natToCharsAux (n + 1) n c h

theorem isDigitChar_ne (c : Char) (h : isDigitChar c = true) :
    ¬c = ':' ∧ ¬c = '!' ∧ ¬c = '/' := by
  unfold isDigitChar at h
  simp only [decide_eq_true_eq] at h
  obtain ⟨h1, h2⟩ := h
  refine ⟨?_, ?_, ?_⟩ <;> intro hc
  · rw [hc] at h2
    exact absurd h2 (by decide)
  · rw [hc] at h1
    exact absurd h1 (by decide)
  · rw [hc] at h1
    exact absurd h1 (by decide)

theorem intToChars_ne_sep (z : Int) (sep : Char) (hsep : sep = ':' ∨ sep = '!')
    (c : Char) (h : c ∈ intToChars z) : ¬c = sep := by
  unfold intToChars at h
  have hdig : ∀ d : Char, isDigitChar d = true → ¬d = sep := by
    intro d hd
    rcases hsep with hs | hs <;> rw [hs]
    · exact (isDigitChar_ne d hd).1
    · exact (isDigitChar_ne d hd).2.1
  by_cases hz : z < 0
  · rw [if_pos hz] at h
    rcases List.mem_cons.mp h with hm | hm
    · rw [hm]
      rcases hsep with hs | hs <;> rw [hs] <;> decide
    · exact hdig c (digit_mem_natToChars _ c hm)
  · rw [if_neg hz] at h
    exact hdig c (digit_mem_natToChars _ c h)

theorem takeWhile_all {p : Char → Bool} (l : Str) (h : ∀ c ∈ l, p c = true) :
    l.takeWhile p = l := by
  induction l with
  | nil => rfl
  | cons c cs ih =>
    rw [List.takeWhile_cons, if_pos (h c (List.mem_cons.mpr (Or.inl rfl)))]
    rw [ih (fun d hd => h d (List.mem_cons.mpr (Or.inr hd)))]

theorem map_id_of (l : Str) (f : Char → Char) (h : ∀ c ∈ l, f c = c) :
    l.map f = l := by
  induction l with
  | nil => rfl
  | cons c cs ih =>
    rw [List.map_cons, h c (List.mem_cons.mpr (Or.inl rfl)),
      ih (fun d hd => h d (List.mem_cons.mpr (Or.inr hd)))]

theorem flagSearch_skip (sep : Char) (pre rest : Str)
    (hpre : ∀ c ∈ pre, ¬c = sep) :
    flagSearch sep (pre ++ rest) = flagSearch sep rest := by
  induction pre with
  | nil => rfl
  | cons c cs ih =>
    rw [List.cons_append]
    show (if (c = sep) ∧ (startsWith ['2', ','] (cs ++ rest) = true) then
        some (((cs ++ rest).drop 2).takeWhile isWordChar)
      else flagSearch sep (cs ++ rest)) = flagSearch sep rest
    rw [if_neg (fun hand => hpre c (List.mem_cons.mpr (Or.inl rfl)) hand.1)]
    exact ih (fun d hd => hpre d (List.mem_cons.mpr (Or.inr hd)))

theorem flagSearch_at (sep : Char) (g : Str) (hg : ∀ c ∈ g, isWordChar c = true) :
    flagSearch sep (sep :: '2' :: ',' :: g) = some g := by
  unfold flagSearch
  rw [if_pos ⟨rfl, rfl⟩]
  simp only [List.drop_succ_cons, List.drop_zero]
  rw [takeWhile_all g hg]

theorem parse_flags_of (stc : Store) (name g : Str)
    (h : flagSearch stc.infosep name = some g) :
    (parseFilename stc name).2.2.2 = mkSet g := by
  unfold parseFilename
  simp only [h]

theorem natToChars_ne_sep (n : Nat) (sep : Char) (hsep : sep = ':' ∨ sep = '!')
    (c : Char) (h : c ∈ natToChars n) : ¬c = sep := by
  have hd := digit_mem_natToChars n c h
  rcases hsep with hs | hs <;> rw [hs]
  · exact (isDigitChar_ne c hd).1
  · exact (isDigitChar_ne c hd).2.1

theorem subst_ne_sep_of (sep : Char) (hsep : sep = ':' ∨ sep = '!') (a : Char)
    (ha : ¬a = sep) : ¬(if a = '/' then '-' else a) = sep := by
  by_cases h : a = '/'
  · rw [if_pos h]
    rcases hsep with hs | hs <;> rw [hs] <;> decide
  · rw [if_neg h]
    exact ha

/-- C6: decoding (with the store's own fingerprint) the filename produced
by `new_message_filename(uid, F)` recovers exactly the flag set `F`, for
every uid and every flag set over the defined alphabet (D, F, R, S, T and
lower-case custom letters).  The ambient hypotheses pin down the
environment the source runs in: the info separator is `:` or `!`, and
neither the (path-separator-substituted) hostname nor the folder
fingerprint contains the separator — true of real hostnames and of
hexadecimal digests. -/
theorem c6_flags_roundtrip (st : MState) (uid : Int) (F : Str) (dateOpt : Option Int)
    (hcanon : mkSet F = F) (hF : ∀ c ∈ F, flagAlpha c = true)
    (hsep : st.store.infosep = ':' ∨ st.store.infosep = '!')
    (hhost : ∀ c ∈ st.hostname, ¬(if c = '/' then '-' else c) = st.store.infosep)
    (hmd5 : ∀ c ∈ st.store.foldermd5, ¬c = st.store.infosep) :
    (parseFilename st.store (newMessageFilename st uid F dateOpt).1).2.2.2 = F := by
  set sep := st.store.infosep with hsepdef
  set tv := (gettimeseq dateOpt st.now st.timehash).1.1 with htv
  set ts := (gettimeseq dateOpt st.now st.timehash).1.2 with hts
  have hname : (newMessageFilename st uid F dateOpt).1 =
      (intToChars tv ++ '_' :: natToChars ts ++ '.' :: natToChars st.pid ++
        '.' :: st.hostname ++ ',' :: 'U' :: '=' :: intToChars uid ++
        fmd5Tag ++ st.store.foldermd5 ++
        sep :: '2' :: ',' :: mkSet F).map (fun c => if c = '/' then '-' else c) := rfl
  have hsplit : intToChars tv ++ '_' :: natToChars ts ++ '.' :: natToChars st.pid ++
      '.' :: st.hostname ++ ',' :: 'U' :: '=' :: intToChars uid ++
      fmd5Tag ++ st.store.foldermd5 ++ sep :: '2' :: ',' :: mkSet F =
      (intToChars tv ++ '_' :: natToChars ts ++ '.' :: natToChars st.pid ++
        '.' :: st.hostname ++ ',' :: 'U' :: '=' :: intToChars uid ++
        fmd5Tag ++ st.store.foldermd5) ++ (sep :: '2' :: ',' :: mkSet F) := by
    simp only [List.append_assoc, List.cons_append]
  have hA : ∀ a ∈ intToChars tv ++ '_' :: natToChars ts ++ '.' :: natToChars st.pid ++
      '.' :: st.hostname ++ ',' :: 'U' :: '=' :: intToChars uid ++
      fmd5Tag ++ st.store.foldermd5, ¬(if a = '/' then '-' else a) = sep := by
    have hlit : ∀ x : Char, ¬x = '/' → ¬x = ':' → ¬x = '!' →
        ¬(if x = '/' then '-' else x) = sep := by
      intro x h1 h2 h3
      rw [if_neg h1]
      rcases hsep with hs | hs <;> rw [hs]
      · exact h2
      · exact h3
    simp only [fmd5Tag, List.forall_mem_append, List.forall_mem_cons, List.not_mem_nil,
      false_implies, implies_true, and_true, and_assoc]
    refine ⟨?_, ?_, ?_, ?_, ?_, ?_, ?_, ?_, ?_, ?_, ?_, ?_, ?_, ?_, ?_, ?_, ?_, ?_⟩
    · intro a h
      exact subst_ne_sep_of sep hsep a (intToChars_ne_sep tv sep hsep a h)
    · exact hlit '_' (by decide) (by decide) (by decide)
    · intro a h
      exact subst_ne_sep_of sep hsep a (natToChars_ne_sep ts sep hsep a h)
    · exact hlit '.' (by decide) (by decide) (by decide)
    · intro a h
      exact subst_ne_sep_of sep hsep a (natToChars_ne_sep st.pid sep hsep a h)
    · exact hlit '.' (by decide) (by decide) (by decide)
    · exact hhost
    · exact hlit ',' (by decide) (by decide) (by decide)
    · exact hlit 'U' (by decide) (by decide) (by decide)
    · exact hlit '=' (by decide) (by decide) (by decide)
    · intro a h
      exact subst_ne_sep_of sep hsep a (intToChars_ne_sep uid sep hsep a h)
    · exact hlit ',' (by decide) (by decide) (by decide)
    · exact hlit 'F' (by decide) (by decide) (by decide)
    · exact hlit 'M' (by decide) (by decide) (by decide)
    · exact hlit 'D' (by decide) (by decide) (by decide)
    · exact hlit '5' (by decide) (by decide) (by decide)
    · exact hlit '=' (by decide) (by decide) (by decide)
    · intro a h
      exact subst_ne_sep_of sep hsep a (hmd5 a h)
  have hsearch : flagSearch sep ((newMessageFilename st uid F dateOpt).1) =
      some (mkSet F) := by
    rw [hname, hsplit, List.map_append]
    rw [flagSearch_skip sep _ _ (by
      intro c hc
      obtain ⟨a, ha, heq⟩ := List.mem_map.mp hc
      rw [← heq]
      exact hA a ha)]
    simp only [List.map_cons]
    rw [show (if sep = '/' then '-' else sep) = sep from by
      rcases hsep with hs | hs <;> rw [hs] <;> decide]
    rw [show (if '2' = '/' then '-' else '2') = '2' from rfl,
      show (if ',' = '/' then '-' else ',') = ',' from rfl]
    rw [map_id_of (mkSet F) _ (by
      intro c hc
      exact if_neg (flagAlpha_ne_slash c (hF c ((mem_mkSet c F).mp hc))))]
    exact flagSearch_at sep (mkSet F) (by
      intro c hc
      exact flagAlpha_word c (hF c ((mem_mkSet c F).mp hc)))
  rw [parse_flags_of st.store _ (mkSet F) hsearch, hcanon, hcanon]

/-- C6 witness: a concrete round trip in the base state with flags
`{'S'}` and UID 5. -/
theorem c6_witness :
    (parseFilename baseState.store (newMessageFilename baseState 5 ['S'] none).1).2.2.2 =
      ['S'] :=
  c6_flags_roundtrip baseState 5 ['S'] none rfl (by decide) (Or.inl rfl)
    (by
      intro c hc
      have hc2 : c = 'h' := by simpa [baseState] using hc
      subst hc2
      decide)
    (by
      intro c hc
      have hc2 : c = 'a' ∨ c = 'b' := by simpa [baseState] using hc
      rcases hc2 with h | h <;> subst h <;> decide)

/-! ## Scanner lemmas: C3 and C10 -/

/-- A directory entry the scan loop actually considers (not a dot file,
not over the size limit). -/
def considered (stc : Store) (f : DFile) : Prop :=
  dotfile f.name = false ∧ sizeSkip stc.maxsize f.size = false

theorem scanStep_excl_mono (stc : Store) (minDate : Option Nat) (minUid : Option Int)
    (s : ScanState) (f : DFile) (k : Int) (h : k ∈ dKeys s.excl) :
    k ∈ dKeys (scanStep stc minDate minUid s f).excl := by
  unfold scanStep
  by_cases h1 : dotfile f.name = true
  · rw [if_pos h1]
    exact h
  · rw [if_neg h1]
    by_cases h2 : sizeSkip stc.maxsize f.size = true
    · rw [if_pos h2]
      exact h
    · rw [if_neg h2]
      by_cases h3 : minUidSkip minUid (match fileUid? stc f.name with
          | none => (s.nouid, s.nouid - 1)
          | some u => (u, s.nouid)).1 = true
      · rw [if_pos h3]
        exact h
      · rw [if_neg h3]
        by_cases h4 : dateExcluded minDate f.name = true
        · rw [if_pos h4]
          exact (mem_dKeys_dInsert _ _ _ _).mpr (Or.inl h)
        · rw [if_neg h4]
          exact h

theorem scanFold_excl_mono (stc : Store) (minDate : Option Nat) (minUid : Option Int)
    (files : List DFile) (s0 : ScanState) (k : Int) (h : k ∈ dKeys s0.excl) :
    k ∈ dKeys (files.foldl (scanStep stc minDate minUid) s0).excl := by
  induction files generalizing s0 with
  | nil => exact h
  | cons f fs ih =>
    exact ih (scanStep stc minDate minUid s0 f) (scanStep_excl_mono _ _ _ s0 f k h)

theorem scanFold_retval_avoid (stc : Store) (minDate : Option Nat) (minUid : Option Int)
    (n : Int) (hn : 0 < n) :
    ∀ (files : List DFile) (s0 : ScanState), s0.nouid ≤ -1 → n ∉ dKeys s0.retval →
      (∀ g ∈ files, fileUid? stc g.name = some n → considered stc g →
        minUidSkip minUid n = true ∨ dateExcluded minDate g.name = true) →
      n ∉ dKeys (files.foldl (scanStep stc minDate minUid) s0).retval := by
  intro files
  induction files with
  | nil =>
    intro s0 _ h0 _
    exact h0
  | cons f fs ih =>
    intro s0 hno h0 hall
    have hstep : (scanStep stc minDate minUid s0 f).nouid ≤ -1 ∧
        n ∉ dKeys (scanStep stc minDate minUid s0 f).retval := by
      unfold scanStep
      by_cases h1 : dotfile f.name = true
      · rw [if_pos h1]
        exact ⟨hno, h0⟩
      · rw [if_neg h1]
        by_cases h2 : sizeSkip stc.maxsize f.size = true
        · rw [if_pos h2]
          exact ⟨hno, h0⟩
        · rw [if_neg h2]
          cases hu : fileUid? stc f.name with
          | none =>
            simp only [hu]
            by_cases h3 : minUidSkip minUid s0.nouid = true
            · rw [if_pos h3]
              exact ⟨by dsimp only; omega, h0⟩
            · rw [if_neg h3]
              by_cases h4 : dateExcluded minDate f.name = true
              · rw [if_pos h4]
                exact ⟨by dsimp only; omega, h0⟩
              · rw [if_neg h4]
                refine ⟨by dsimp only; omega, ?_⟩
                intro hmem
                rcases (mem_dKeys_dInsert _ _ _ _).mp hmem with hm | hm
                · exact h0 hm
                · omega
          | some u =>
            simp only [hu]
            by_cases hun : u = n
            · subst hun
              have := hall f (List.mem_cons.mpr (Or.inl rfl)) hu ⟨by
                  exact Bool.eq_false_iff.mpr h1, by
                  exact Bool.eq_false_iff.mpr h2⟩
              rcases this with hskip | hdate
              · rw [if_pos hskip]
                exact ⟨hno, h0⟩
              · by_cases h3 : minUidSkip minUid u = true
                · rw [if_pos h3]
                  exact ⟨hno, h0⟩
                · rw [if_neg h3, if_pos hdate]
                  exact ⟨hno, h0⟩
            · by_cases h3 : minUidSkip minUid u = true
              · rw [if_pos h3]
                exact ⟨hno, h0⟩
              · rw [if_neg h3]
                by_cases h4 : dateExcluded minDate f.name = true
                · rw [if_pos h4]
                  exact ⟨hno, h0⟩
                · rw [if_neg h4]
                  refine ⟨hno, ?_⟩
                  intro hmem
                  rcases (mem_dKeys_dInsert _ _ _ _).mp hmem with hm | hm
                  · exact h0 hm
                  · exact hun hm.symm
    exact ih (scanStep stc minDate minUid s0 f) hstep.1 hstep.2
      (fun g hg => hall g (List.mem_cons.mpr (Or.inr hg)))

theorem scanFold_excl_avoid (stc : Store) (minDate : Option Nat) (minUid : Option Int)
    (n : Int) (hn : 0 < n) :
    ∀ (files : List DFile) (s0 : ScanState), s0.nouid ≤ -1 → n ∉ dKeys s0.excl →
      (∀ g ∈ files, fileUid? stc g.name = some n → considered stc g →
        minUidSkip minUid n = true ∨ dateExcluded minDate g.name = false) →
      n ∉ dKeys (files.foldl (scanStep stc minDate minUid) s0).excl := by
  intro files
  induction files with
  | nil =>
    intro s0 _ h0 _
    exact h0
  | cons f fs ih =>
    intro s0 hno h0 hall
    have hstep : (scanStep stc minDate minUid s0 f).nouid ≤ -1 ∧
        n ∉ dKeys (scanStep stc minDate minUid s0 f).excl := by
      unfold scanStep
      by_cases h1 : dotfile f.name = true
      · rw [if_pos h1]
        exact ⟨hno, h0⟩
      · rw [if_neg h1]
        by_cases h2 : sizeSkip stc.maxsize f.size = true
        · rw [if_pos h2]
          exact ⟨hno, h0⟩
        · rw [if_neg h2]
          cases hu : fileUid? stc f.name with
          | none =>
            simp only [hu]
            by_cases h3 : minUidSkip minUid s0.nouid = true
            · rw [if_pos h3]
              exact ⟨by dsimp only; omega, h0⟩
            · rw [if_neg h3]
              by_cases h4 : dateExcluded minDate f.name = true
              · rw [if_pos h4]
                refine ⟨by dsimp only; omega, ?_⟩
                intro hmem
                rcases (mem_dKeys_dInsert _ _ _ _).mp hmem with hm | hm
                · exact h0 hm
                · omega
              · rw [if_neg h4]
                exact ⟨by dsimp only; omega, h0⟩
          | some u =>
            simp only [hu]
            by_cases hun : u = n
            · subst hun
              have := hall f (List.mem_cons.mpr (Or.inl rfl)) hu ⟨by
                  exact Bool.eq_false_iff.mpr h1, by
                  exact Bool.eq_false_iff.mpr h2⟩
              rcases this with hskip | hdate
              · rw [if_pos hskip]
                exact ⟨hno, h0⟩
              · by_cases h3 : minUidSkip minUid u = true
                · rw [if_pos h3]
                  exact ⟨hno, h0⟩
                · rw [if_neg h3, if_neg (by rw [hdate]; exact Bool.false_ne_true)]
                  exact ⟨hno, h0⟩
            · by_cases h3 : minUidSkip minUid u = true
              · rw [if_pos h3]
                exact ⟨hno, h0⟩
              · rw [if_neg h3]
                by_cases h4 : dateExcluded minDate f.name = true
                · rw [if_pos h4]
                  refine ⟨hno, ?_⟩
                  intro hmem
                  rcases (mem_dKeys_dInsert _ _ _ _).mp hmem with hm | hm
                  · exact h0 hm
                  · exact hun hm.symm
                · rw [if_neg h4]
                  exact ⟨hno, h0⟩
    exact ih (scanStep stc minDate minUid s0 f) hstep.1 hstep.2
      (fun g hg => hall g (List.mem_cons.mpr (Or.inr hg)))

theorem mem_dKeys_reinclude (retval excl : MsgList) (k : Int) :
    k ∈ dKeys (reinclude retval excl) ↔
      k ∈ dKeys retval ∨ (k ∈ dKeys excl ∧
        ∃ mp, (positiveKeys retval).min? = some mp ∧ mp < k) := by
  unfold reinclude
  cases hmin : (positiveKeys retval).min? with
  | none => simp
  | some m =>
    have hfold : ∀ (l : MsgList) (r0 : MsgList),
        k ∈ dKeys (l.foldl (fun r p => if m < p.1 then dInsert r p.1 p.2 else r) r0) ↔
          k ∈ dKeys r0 ∨ (k ∈ dKeys l ∧ m < k) := by
      intro l
      induction l with
      | nil =>
        intro r0
        simp [dKeys]
      | cons p ps ih =>
        intro r0
        rw [List.foldl_cons, ih]
        have hdk : k ∈ dKeys (p :: ps) ↔ k = p.1 ∨ k ∈ dKeys ps := by
          unfold dKeys
          rw [List.map_cons, List.mem_cons]
        by_cases hm : m < p.1
        · rw [if_pos hm, mem_dKeys_dInsert, hdk]
          constructor
          · rintro ((h | h) | ⟨h1, h2⟩)
            · exact Or.inl h
            · exact Or.inr ⟨Or.inl h, by rw [h]; exact hm⟩
            · exact Or.inr ⟨Or.inr h1, h2⟩
          · rintro (h | ⟨h1 | h1, h2⟩)
            · exact Or.inl (Or.inl h)
            · exact Or.inl (Or.inr h1)
            · exact Or.inr ⟨h1, h2⟩
        · rw [if_neg hm, hdk]
          constructor
          · rintro (h | ⟨h1, h2⟩)
            · exact Or.inl h
            · exact Or.inr ⟨Or.inr h1, h2⟩
          · rintro (h | ⟨h1 | h1, h2⟩)
            · exact Or.inl h
            · rw [h1] at h2
              exact absurd h2 hm
            · exact Or.inr ⟨h1, h2⟩
    rw [hfold]
    simp

theorem reinclude_eq_of_no_pos (retval excl : MsgList)
    (h : positiveKeys retval = []) : reinclude retval excl = retval := by
  unfold reinclude
  rw [h]
  rfl

/-- C3: the `_scanfolder` filtering policy with `min_date` set.
(1) A message whose UID is known, positive and below `min_uid` is excluded
from the primary result, from the side set, and from the final result.
(2) A considered file whose UID is known and positive, which passes the
UID floor but whose embedded timestamp is earlier than `min_date`, is held
in the side set and (when no other file carries the same UID) kept out of
the primary result.
(3) A UID is in the final result exactly when it is in the primary result,
or it is in the side set and some minimum positive retained UID exists and
is strictly below it.
(4) If no positive UIDs were retained, the final result is the primary
result: no side-set message is reintroduced. -/
theorem c3_scanfolder_min_date_policy (stc : Store) (disk : List DFile) (d : Nat)
    (minUid : Option Int) :
    (∀ n m : Int, minUid = some m → 0 < n → n < m →
      n ∉ dKeys (scanLoop stc (some d) minUid disk).retval ∧
      n ∉ dKeys (scanLoop stc (some d) minUid disk).excl ∧
      n ∉ dKeys (scanfolder stc (some d) minUid disk))
    ∧ (∀ (f : DFile) (n : Int), f ∈ scanFiles disk → considered stc f →
      fileUid? stc f.name = some n → 0 < n → minUidSkip minUid n = false →
      iswithintime f.name d = false →
      (∀ g ∈ scanFiles disk, fileUid? stc g.name = some n → g = f) →
      n ∈ dKeys (scanLoop stc (some d) minUid disk).excl ∧
      n ∉ dKeys (scanLoop stc (some d) minUid disk).retval)
    ∧ (∀ k : Int, k ∈ dKeys (scanfolder stc (some d) minUid disk) ↔
      k ∈ dKeys (scanLoop stc (some d) minUid disk).retval ∨
      (k ∈ dKeys (scanLoop stc (some d) minUid disk).excl ∧
        ∃ mp, (positiveKeys (scanLoop stc (some d) minUid disk).retval).min? = some mp ∧
          mp < k))
    ∧ (positiveKeys (scanLoop stc (some d) minUid disk).retval = [] →
      scanfolder stc (some d) minUid disk = (scanLoop stc (some d) minUid disk).retval) := by
  have hscan : scanfolder stc (some d) minUid disk =
      reinclude (scanLoop stc (some d) minUid disk).retval
        (scanLoop stc (some d) minUid disk).excl := rfl
  have hiff : ∀ k : Int, k ∈ dKeys (scanfolder stc (some d) minUid disk) ↔
      k ∈ dKeys (scanLoop stc (some d) minUid disk).retval ∨
      (k ∈ dKeys (scanLoop stc (some d) minUid disk).excl ∧
        ∃ mp, (positiveKeys (scanLoop stc (some d) minUid disk).retval).min? = some mp ∧
          mp < k) := by
    intro k
    rw [hscan]
    exact mem_dKeys_reinclude _ _ k
  refine ⟨?_, ?_, hiff, ?_⟩
  · intro n m hm hn hnm
    have hskipall : minUidSkip minUid n = true := by
      rw [hm]
      unfold minUidSkip
      simp only [decide_eq_true_eq]
      exact ⟨hn, hnm⟩
    have h1 : n ∉ dKeys (scanLoop stc (some d) minUid disk).retval :=
      scanFold_retval_avoid stc (some d) minUid n hn (scanFiles disk) ⟨-1, [], []⟩
        (by dsimp only; omega) (by simp [dKeys])
        (fun g _ _ _ => Or.inl hskipall)
    have h2 : n ∉ dKeys (scanLoop stc (some d) minUid disk).excl :=
      scanFold_excl_avoid stc (some d) minUid n hn (scanFiles disk) ⟨-1, [], []⟩
        (by dsimp only; omega) (by simp [dKeys])
        (fun g _ _ _ => Or.inl hskipall)
    refine ⟨h1, h2, ?_⟩
    intro hmem
    rcases (hiff n).mp hmem with h | ⟨h, _⟩
    · exact h1 h
    · exact h2 h
  · intro f n hf hcons hu hn hskip hwithin huniq
    obtain ⟨l1, l2, hsplitf⟩ := List.append_of_mem hf
    have hloop : scanLoop stc (some d) minUid disk =
        l2.foldl (scanStep stc (some d) minUid)
          (scanStep stc (some d) minUid
            (l1.foldl (scanStep stc (some d) minUid) ⟨-1, [], []⟩) f) := by
      unfold scanLoop
      rw [hsplitf, List.foldl_append, List.foldl_cons]
    have hdate : dateExcluded (some d) f.name = true := by
      show (!iswithintime f.name d) = true
      rw [hwithin]
      rfl
    constructor
    · rw [hloop]
      refine scanFold_excl_mono stc (some d) minUid l2 _ n ?_
      unfold scanStep
      rw [if_neg (by rw [hcons.1]; exact Bool.false_ne_true)]
      rw [if_neg (by rw [hcons.2]; exact Bool.false_ne_true)]
      simp only [hu]
      rw [if_neg (by rw [hskip]; exact Bool.false_ne_true)]
      rw [if_pos hdate]
      exact (mem_dKeys_dInsert _ _ _ _).mpr (Or.inr rfl)
    · refine scanFold_retval_avoid stc (some d) minUid n hn (scanFiles disk) ⟨-1, [], []⟩
        (by dsimp only; omega) (by simp [dKeys]) ?_
      intro g hg hgu _
      rw [huniq g hg hgu]
      exact Or.inr hdate
  · intro h
    rw [hscan]
    exact reinclude_eq_of_no_pos _ _ h

def c3File1 : DFile := ⟨Dir.cur, ("2000_0.1.h,U=3,FMD5=ab:2,").data, 1⟩

def c3File2 : DFile := ⟨Dir.cur, ("1000_0.1.h,U=9,FMD5=ab:2,").data, 1⟩

def c3File3 : DFile := ⟨Dir.cur, ("1000_0.1.h,U=2,FMD5=ab:2,").data, 1⟩

def c3Disk : List DFile := [c3File1, c3File2, c3File3]

/-- C3 witness: with `min_date = 1500` and `min_uid = 3` over a mailbox
holding UID 3 (timestamp 2000), UID 9 (timestamp 1000) and UID 2
(timestamp 1000): UID 2 is dropped by the UID floor; UID 9 is
date-excluded into the side set, out of the primary result, and
reintroduced in the final result because the minimum retained positive UID
(3) is below it; and with an empty mailbox no reintroduction happens. -/
theorem c3_witness :
    ((2 : Int) ∉ dKeys (scanLoop baseState.store (some 1500) (some 3) c3Disk).retval ∧
      (2 : Int) ∉ dKeys (scanLoop baseState.store (some 1500) (some 3) c3Disk).excl ∧
      (2 : Int) ∉ dKeys (scanfolder baseState.store (some 1500) (some 3) c3Disk)) ∧
    ((9 : Int) ∈ dKeys (scanLoop baseState.store (some 1500) (some 3) c3Disk).excl ∧
      (9 : Int) ∉ dKeys (scanLoop baseState.store (some 1500) (some 3) c3Disk).retval) ∧
    ((9 : Int) ∈ dKeys (scanfolder baseState.store (some 1500) (some 3) c3Disk) ↔
      (9 : Int) ∈ dKeys (scanLoop baseState.store (some 1500) (some 3) c3Disk).retval ∨
      ((9 : Int) ∈ dKeys (scanLoop baseState.store (some 1500) (some 3) c3Disk).excl ∧
        ∃ mp, (positiveKeys
            (scanLoop baseState.store (some 1500) (some 3) c3Disk).retval).min? =
          some mp ∧ mp < 9)) ∧
    (scanfolder baseState.store (some 1500) (some 3) ([] : List DFile) =
      (scanLoop baseState.store (some 1500) (some 3) ([] : List DFile)).retval) :=
  ⟨(c3_scanfolder_min_date_policy baseState.store c3Disk 1500 (some 3)).1 2 3 rfl
      (by decide) (by decide),
   (c3_scanfolder_min_date_policy baseState.store c3Disk 1500 (some 3)).2.1 c3File2 9
      (by decide) ⟨by decide, by decide⟩ (by decide) (by decide) (by decide) (by decide)
      (by decide),
   (c3_scanfolder_min_date_policy baseState.store c3Disk 1500 (some 3)).2.2.1 9,
   (c3_scanfolder_min_date_policy baseState.store ([] : List DFile) 1500
      (some 3)).2.2.2 (by decide)⟩

/-! ## No-digit filenames: C10 -/

theorem takeWhile_none {p : Char → Bool} (l : Str) (h : ∀ c ∈ l, p c = false) :
    l.takeWhile p = [] := by
  cases l with
  | nil => rfl
  | cons c cs =>
    rw [List.takeWhile_cons, if_neg (by
      rw [h c (List.mem_cons.mpr (Or.inl rfl))]
      exact Bool.false_ne_true)]

theorem timestampSearch_none (name : Str) (h : ∀ c ∈ name, isDigitChar c = false) :
    timestampSearch name = none := by
  induction name with
  | nil => rfl
  | cons c cs ih =>
    unfold timestampSearch
    rw [if_neg (by
      rw [h c (List.mem_cons.mpr (Or.inl rfl))]
      exact Bool.false_ne_true)]
    exact ih (fun d hd => h d (List.mem_cons.mpr (Or.inr hd)))

theorem iswithintime_of_nodigit (name : Str) (d : Nat)
    (h : ∀ c ∈ name, isDigitChar c = false) : iswithintime name d = true := by
  unfold iswithintime
  rw [timestampSearch_none name h]

theorem startsWith_two_comma_false (rest : Str)
    (h : ∀ c ∈ rest, isDigitChar c = false) : startsWith ['2', ','] rest = false := by
  cases rest with
  | nil => rfl
  | cons x xs =>
    unfold startsWith
    rw [if_neg (by
      intro h2
      have := h x (List.mem_cons.mpr (Or.inl rfl))
      rw [← h2] at this
      exact absurd this (by decide))]

theorem uidSearch_none_of_nodigit (name : Str)
    (h : ∀ c ∈ name, isDigitChar c = false) : uidSearch name = none := by
  induction name with
  | nil => rfl
  | cons c cs ih =>
    unfold uidSearch
    rw [if_neg (by
      rintro ⟨-, -, htw⟩
      refine htw (takeWhile_none _ ?_)
      intro x hx
      exact h x (List.mem_cons.mpr (Or.inr ((List.drop_sublist 2 cs).subset hx))))]
    exact ih (fun x hx => h x (List.mem_cons.mpr (Or.inr hx)))

theorem flagSearch_none_of_nodigit (sep : Char) (name : Str)
    (h : ∀ c ∈ name, isDigitChar c = false) : flagSearch sep name = none := by
  induction name with
  | nil => rfl
  | cons c cs ih =>
    unfold flagSearch
    rw [if_neg (by
      rintro ⟨-, hsw⟩
      rw [startsWith_two_comma_false cs
        (fun x hx => h x (List.mem_cons.mpr (Or.inr hx)))] at hsw
      exact absurd hsw Bool.false_ne_true)]
    exact ih (fun x hx => h x (List.mem_cons.mpr (Or.inr hx)))

theorem fileUid?_none_of_nodigit (stc : Store) (name : Str)
    (h : ∀ c ∈ name, isDigitChar c = false) : fileUid? stc name = none := by
  have hp : (parseFilename stc name).2.1 = none := by
    unfold parseFilename
    by_cases hfm : isSubstr (fmd5Tag ++ stc.foldermd5) name = true
    · simp only [hfm, if_pos]
      exact uidSearch_none_of_nodigit name h
    · simp [hfm]
  unfold fileUid?
  rw [hp]

theorem parse_flags_empty_of_nodigit (stc : Store) (name : Str)
    (h : ∀ c ∈ name, isDigitChar c = false) : (parseFilename stc name).2.2.2 = [] := by
  unfold parseFilename
  simp only [flagSearch_none_of_nodigit stc.infosep name h]
  rfl

theorem dateExcluded_has_digit (minDate : Option Nat) (name : Str)
    (h : dateExcluded minDate name = true) : ∃ c ∈ name, isDigitChar c = true := by
  by_contra hno
  push_neg at hno
  have hnod : ∀ c ∈ name, isDigitChar c = false := by
    intro c hc
    exact Bool.eq_false_iff.mpr (hno c hc)
  cases minDate with
  | none => exact absurd h (by simp [dateExcluded])
  | some d =>
    have : dateExcluded (some d) name = false := by
      show (!iswithintime name d) = false
      rw [iswithintime_of_nodigit name d hnod]
      rfl
    rw [this] at h
    exact absurd h Bool.false_ne_true

theorem scanFold_excl_digit (stc : Store) (minDate : Option Nat) (minUid : Option Int) :
    ∀ (files : List DFile) (s0 : ScanState),
      (∀ p ∈ s0.excl, ∃ c ∈ p.2.filename.2, isDigitChar c = true) →
      ∀ p ∈ (files.foldl (scanStep stc minDate minUid) s0).excl,
        ∃ c ∈ p.2.filename.2, isDigitChar c = true := by
  intro files
  induction files with
  | nil =>
    intro s0 h0
    exact h0
  | cons f fs ih =>
    intro s0 h0
    refine ih (scanStep stc minDate minUid s0 f) ?_
    intro p hp
    unfold scanStep at hp
    by_cases h1 : dotfile f.name = true
    · rw [if_pos h1] at hp
      exact h0 p hp
    · rw [if_neg h1] at hp
      by_cases h2 : sizeSkip stc.maxsize f.size = true
      · rw [if_pos h2] at hp
        exact h0 p hp
      · rw [if_neg h2] at hp
        by_cases h3 : minUidSkip minUid (match fileUid? stc f.name with
            | none => (s0.nouid, s0.nouid - 1)
            | some u => (u, s0.nouid)).1 = true
        · rw [if_pos h3] at hp
          exact h0 p hp
        · rw [if_neg h3] at hp
          by_cases h4 : dateExcluded minDate f.name = true
          · rw [if_pos h4] at hp
            rcases mem_of_mem_dInsert _ _ _ p hp with hm | hm
            · exact h0 p hm
            · rw [hm]
              exact dateExcluded_has_digit minDate f.name h4
          · rw [if_neg h4] at hp
            exact h0 p hp

/-- The two structural invariants of the scan loop state: the synthetic
counter stays at or below −1, and every negative key already in the
primary result lies strictly above the counter (so the counter never
collides with an existing key). -/
def scanInv (s : ScanState) : Prop :=
  s.nouid ≤ -1 ∧ ∀ p ∈ s.retval, p.1 < 0 → s.nouid < p.1

theorem fileUid?_nonneg (stc : Store) (nm : Str) (u : Int)
    (h : fileUid? stc nm = some u) : 0 ≤ u := by
  unfold fileUid? at h
  cases hp : (parseFilename stc nm).2.1 with
  | none =>
    simp only [hp] at h
    exact absurd h (by simp)
  | some x =>
    simp only [hp] at h
    cases hu : uidSearch nm with
    | none =>
      simp only [hu] at h
      exact absurd h (by simp)
    | some n =>
      simp only [hu, Option.some.injEq] at h
      rw [← h]
      exact Int.natCast_nonneg n

theorem self_mem_dInsert {α : Type} (d : List (Int × α)) (k : Int) (v : α) :
    (k, v) ∈ dInsert d k v := by
  induction d with
  | nil => exact List.mem_cons.mpr (Or.inl rfl)
  | cons p ps ih =>
    unfold dInsert
    by_cases hp : p.1 = k
    · rw [if_pos hp]
      exact List.mem_cons.mpr (Or.inl rfl)
    · rw [if_neg hp]
      exact List.mem_cons.mpr (Or.inr ih)

theorem minUidSkip_nonpos (minUid : Option Int) (u : Int) (h : u ≤ -1) :
    minUidSkip minUid u = false := by
  cases minUid with
  | none => rfl
  | some m =>
    unfold minUidSkip
    apply decide_eq_false
    omega

theorem scanStep_inv_pair (stc : Store) (minDate : Option Nat) (minUid : Option Int)
    (s : ScanState) (f : DFile) (hinv : scanInv s) :
    scanInv (scanStep stc minDate minUid s f) ∧
    ∀ (k : Int) (v : MsgRecord), (k, v) ∈ s.retval → k < 0 →
      (k, v) ∈ (scanStep stc minDate minUid s f).retval := by
  obtain ⟨hno, hpairs⟩ := hinv
  unfold scanStep
  by_cases h1 : dotfile f.name = true
  · rw [if_pos h1]
    exact ⟨⟨hno, hpairs⟩, fun k v hm _ => hm⟩
  · rw [if_neg h1]
    by_cases h2 : sizeSkip stc.maxsize f.size = true
    · rw [if_pos h2]
      exact ⟨⟨hno, hpairs⟩, fun k v hm _ => hm⟩
    · rw [if_neg h2]
      cases hu : fileUid? stc f.name with
      | none =>
        simp only [hu]
        by_cases h3 : minUidSkip minUid s.nouid = true
        · rw [if_pos h3]
          refine ⟨⟨by dsimp only; omega, ?_⟩, fun k v hm _ => hm⟩
          intro p hp hneg
          have := hpairs p hp hneg
          dsimp only
          omega
        · rw [if_neg h3]
          by_cases h4 : dateExcluded minDate f.name = true
          · rw [if_pos h4]
            refine ⟨⟨by dsimp only; omega, ?_⟩, fun k v hm _ => hm⟩
            intro p hp hneg
            have := hpairs p hp hneg
            dsimp only
            omega
          · rw [if_neg h4]
            constructor
            · refine ⟨by dsimp only; omega, ?_⟩
              intro p hp hneg
              dsimp only at hp ⊢
              rcases mem_of_mem_dInsert _ _ _ p hp with hm | hm
              · have := hpairs p hm hneg
                omega
              · rw [hm] at hneg ⊢
                omega
            · intro k v hm hneg
              dsimp only
              exact mem_dInsert_of_ne _ _ _ _ _ hm (by
                have := hpairs (k, v) hm hneg
                omega)
      | some u =>
        simp only [hu]
        have hu0 : 0 ≤ u := fileUid?_nonneg stc f.name u hu
        by_cases h3 : minUidSkip minUid u = true
        · rw [if_pos h3]
          exact ⟨⟨hno, hpairs⟩, fun k v hm _ => hm⟩
        · rw [if_neg h3]
          by_cases h4 : dateExcluded minDate f.name = true
          · rw [if_pos h4]
            exact ⟨⟨hno, hpairs⟩, fun k v hm _ => hm⟩
          · rw [if_neg h4]
            constructor
            · refine ⟨hno, ?_⟩
              intro p hp hneg
              dsimp only at hp ⊢
              rcases mem_of_mem_dInsert _ _ _ p hp with hm | hm
              · exact hpairs p hm hneg
              · rw [hm] at hneg
                dsimp only at hneg
                omega
            · intro k v hm hneg
              dsimp only
              exact mem_dInsert_of_ne _ _ _ _ _ hm (by omega)

theorem scanFold_inv_pair (stc : Store) (minDate : Option Nat) (minUid : Option Int) :
    ∀ (files : List DFile) (s0 : ScanState), scanInv s0 →
      scanInv (files.foldl (scanStep stc minDate minUid) s0) ∧
      ∀ (k : Int) (v : MsgRecord), (k, v) ∈ s0.retval → k < 0 →
        (k, v) ∈ (files.foldl (scanStep stc minDate minUid) s0).retval := by
  intro files
  induction files with
  | nil =>
    intro s0 h0
    exact ⟨h0, fun k v hm _ => hm⟩
  | cons f fs ih =>
    intro s0 h0
    have hstep := scanStep_inv_pair stc minDate minUid s0 f h0
    have hrec := ih (scanStep stc minDate minUid s0 f) hstep.1
    exact ⟨hrec.1, fun k v hm hneg => hrec.2 k v (hstep.2 k v hm hneg) hneg⟩

/-- C10: the scanner's date filter reads the first run of decimal digits
found anywhere in the filename, not just in the leading prefix, and a
filename containing no digits at all is within the time window.
(1) `_iswithintime` accepts every digit-free name for every cutoff.
(2) Every entry of the date-excluded side set has a digit in its filename:
a digit-free message is never placed there, for any `min_date`.
(3) A considered digit-free file always lands in the primary scan result,
under a synthetic negative UID, when `min_date` is set.
(4) Concretely, `new.mail,U=7:2,S` has a digit-free prefix (`new.mail`, as
decoded by the prefix match) yet is rejected by the cutoff 70 on the
strength of the digit 7 occurring after the prefix. -/
theorem c10_first_digit_run_anywhere :
    (∀ (name : Str) (d : Nat), (∀ c ∈ name, isDigitChar c = false) →
      iswithintime name d = true)
    ∧ (∀ (stc : Store) (minDate : Option Nat) (minUid : Option Int) (disk : List DFile)
        (p : Int × MsgRecord), p ∈ (scanLoop stc minDate minUid disk).excl →
        ∃ c ∈ p.2.filename.2, isDigitChar c = true)
    ∧ (∀ (stc : Store) (d : Nat) (minUid : Option Int) (disk : List DFile) (f : DFile),
        f ∈ scanFiles disk → considered stc f →
        (∀ c ∈ f.name, isDigitChar c = false) →
        ∃ k : Int, k < 0 ∧ (k, (⟨[], (f.dir, f.name)⟩ : MsgRecord)) ∈
          (scanLoop stc (some d) minUid disk).retval)
    ∧ ((parseFilename baseState.store (("new.mail,U=7:2,S").data)).1 =
        ("new.mail").data ∧
      (∀ c ∈ (parseFilename baseState.store (("new.mail,U=7:2,S").data)).1,
        isDigitChar c = false) ∧
      iswithintime (("new.mail,U=7:2,S").data) 70 = false) := by
  refine ⟨iswithintime_of_nodigit, ?_, ?_, by decide, by decide, by decide⟩
  · intro stc minDate minUid disk p hp
    exact scanFold_excl_digit stc minDate minUid (scanFiles disk) ⟨-1, [], []⟩
      (by intro q hq; simp at hq) p hp
  · intro stc d minUid disk f hf hcons hnod
    obtain ⟨l1, l2, hsp⟩ := List.append_of_mem hf
    have hloop : scanLoop stc (some d) minUid disk =
        l2.foldl (scanStep stc (some d) minUid)
          (scanStep stc (some d) minUid
            (l1.foldl (scanStep stc (some d) minUid) ⟨-1, [], []⟩) f) := by
      unfold scanLoop
      rw [hsp, List.foldl_append, List.foldl_cons]
    set s1 : ScanState := l1.foldl (scanStep stc (some d) minUid) ⟨-1, [], []⟩ with hs1
    have hinv1 : scanInv s1 := by
      rw [hs1]
      exact (scanFold_inv_pair stc (some d) minUid l1 ⟨-1, [], []⟩
        ⟨by dsimp only; omega, by intro q hq; simp at hq⟩).1
    have hdatef : dateExcluded (some d) f.name = false := by
      show (!iswithintime f.name d) = false
      rw [iswithintime_of_nodigit f.name d hnod]
      rfl
    have hstepmem : (s1.nouid, (⟨[], (f.dir, f.name)⟩ : MsgRecord)) ∈
        (scanStep stc (some d) minUid s1 f).retval := by
      unfold scanStep
      rw [if_neg (by rw [hcons.1]; exact Bool.false_ne_true)]
      rw [if_neg (by rw [hcons.2]; exact Bool.false_ne_true)]
      simp only [fileUid?_none_of_nodigit stc f.name hnod]
      rw [if_neg (by
        rw [minUidSkip_nonpos minUid _ hinv1.1]
        exact Bool.false_ne_true)]
      rw [if_neg (by rw [hdatef]; exact Bool.false_ne_true)]
      dsimp only
      rw [parse_flags_empty_of_nodigit stc f.name hnod]
      exact self_mem_dInsert _ _ _
    have hstepinv : scanInv (scanStep stc (some d) minUid s1 f) :=
      (scanStep_inv_pair stc (some d) minUid s1 f hinv1).1
    refine ⟨s1.nouid, by have := hinv1.1; omega, ?_⟩
    rw [hloop]
    exact (scanFold_inv_pair stc (some d) minUid l2 _ hstepinv).2 _ _ hstepmem
      (by have := hinv1.1; omega)

/-- C10 witness: a mailbox with a digit-free message `nodigits` in `new/`
and a date-bearing one: the digit-free file is retained in the primary
result under a synthetic negative UID for cutoff 1500, and the side set of
a scan that excluded `1000_0.1.h,U=9,FMD5=ab:2,` indeed only holds names
with digits. -/
theorem c10_witness :
    iswithintime (("nodigits").data) 1500 = true ∧
    (∃ c ∈ (((9 : Int), (⟨[], (Dir.cur, ("1000_0.1.h,U=9,FMD5=ab:2,").data)⟩ :
        MsgRecord)) : Int × MsgRecord).2.filename.2, isDigitChar c = true) ∧
    ∃ k : Int, k < 0 ∧
      (k, (⟨[], (Dir.new, ("nodigits").data)⟩ : MsgRecord)) ∈
        (scanLoop baseState.store (some 1500) none
          [⟨Dir.new, ("nodigits").data, 1⟩]).retval :=
  ⟨c10_first_digit_run_anywhere.1 (("nodigits").data) 1500 (by decide),
   c10_first_digit_run_anywhere.2.1 baseState.store (some 1500) none [c3File2]
     ((9 : Int), ⟨[], (Dir.cur, ("1000_0.1.h,U=9,FMD5=ab:2,").data)⟩) (by decide),
   c10_first_digit_run_anywhere.2.2.1 baseState.store 1500 none
     [⟨Dir.new, ("nodigits").data, 1⟩] ⟨Dir.new, ("nodigits").data, 1⟩
     (by decide) ⟨by decide, by decide⟩ (by decide)⟩
